import Mathlib

/-!
Verification of the fork-context truncation pipeline.

The development shallowly embeds the processing utilities of the fork-context
module (compaction-boundary detection, graduated tiered tool-result truncation,
context formatting and character-budget enforcement) together with the
configuration constants they import.

Modelling conventions:
* A JavaScript string is modelled as its list of characters (`JSStr`).
  Lengths, slices and substring tests coincide with the JavaScript ones for
  the texts considered here.
* JavaScript optional fields become `Option`; JS truthiness of an optional
  string (`undefined`, `null` and `""` are falsy) is `jsTruthy`.
* The mutable `stats` object is threaded explicitly; every mutation in the
  source becomes a functional record update.
* The two nested `for` loops of the truncation stage are written as the
  recursions `processParts` / `processMessagesAux`; the body of the part loop
  for a counted tool result is factored into the pure `stepPart` (the produced
  part) and `stepStats` (the stats update), which together are exactly the
  loop body of the source.
-/

/-- A JavaScript string, modelled as its list of characters. -/
abbrev JSStr := List Char

/-- Character list of a Lean string literal, used to write JS string literals. -/
def jstr (s : String) : JSStr := s.data

/-- JS truthiness of an optional string: `undefined` and `""` are falsy. -/
def jsTruthy : Option JSStr → Bool
  | none => false
  | some s => !s.isEmpty

/-- JS `a || b` for two optional strings: `a` when truthy, otherwise `b` as is. -/
def jsOrStr (a b : Option JSStr) : Option JSStr := if jsTruthy a then a else b

/-- JS `s.includes(sub)`: substring test. -/
def jsIncludes (s sub : JSStr) : Bool := decide (sub <:+: s)

/-- JS `s.slice(-t)`: the last `t` characters; `t = 0` yields the whole string. -/
def jsSliceNeg (s : JSStr) (t : Nat) : JSStr := if t = 0 then s else s.drop (s.length - t)

/-- JSON values, for the `Record<string, unknown>` tool inputs. -/
inductive Json where
  | null
  | bool (b : Bool)
  | num (n : Int)
  | str (s : String)
  | arr (elems : List Json)
  | obj (fields : List (String × Json))

/-- Opening brace character (written via its code point). -/
def lbrace : Char := Char.ofNat 123

/-- Closing brace character (written via its code point). -/
def rbrace : Char := Char.ofNat 125

/-- Escaping of one character inside a JSON string literal. Only the quote and
the backslash are escaped; the pipeline never inspects escape sequences, it
only measures and slices the serialized text. -/
def jsonEscapeChar (c : Char) : List Char :=
  if c = '"' ∨ c = '\\' then ['\\', c] else [c]

/-- Body of a JSON string literal. -/
def jsonEscape (s : String) : JSStr := s.data.flatMap jsonEscapeChar

mutual

/-- Compact JSON serialization, modelling `JSON.stringify` (no spaces, fields
in declaration order). -/
def Json.stringify : Json → JSStr
  | .null => jstr "null"
  | .bool true => jstr "true"
  | .bool false => jstr "false"
  | .num n => (toString n).data
  | .str s => '"' :: (jsonEscape s ++ ['"'])
  | .arr es => '[' :: (stringifyArr es ++ [']'])
  | .obj fs => lbrace :: (stringifyFields fs ++ [rbrace])

/-- Comma-separated serialization of array elements. -/
def stringifyArr : List Json → JSStr
  | [] => []
  | [e] => e.stringify
  | e :: e2 :: rest => e.stringify ++ ',' :: stringifyArr (e2 :: rest)

/-- Comma-separated serialization of object fields. -/
def stringifyFields : List (String × Json) → JSStr
  | [] => []
  | [(k, v)] => '"' :: (jsonEscape k ++ '"' :: ':' :: v.stringify)
  | (k, v) :: f2 :: rest =>
    ('"' :: (jsonEscape k ++ '"' :: ':' :: v.stringify)) ++ ',' :: stringifyFields (f2 :: rest)

end

/-- One message part (element of the source interface `SessionMessage.parts`).
The nested `state` object is flattened: `stateInput` models `state.input` (a
`Record<string, unknown>`, kept as its field list) and `stateTimeCompacted`
models `state.time.compacted`. -/
structure MsgPart where
  type : Option JSStr := none
  text : Option JSStr := none
  auto : Option Bool := none
  tool : Option JSStr := none
  stateInput : Option (List (String × Json)) := none
  stateTimeCompacted : Option JSStr := none
  name : Option JSStr := none
  id : Option JSStr := none
  input : Option (List (String × Json)) := none

/-- The `info` object of a message. -/
structure MsgInfo where
  role : Option JSStr := none
  summary : Option Bool := none
deriving DecidableEq

/-- A session message (source interface `SessionMessage`). -/
structure SessionMessage where
  info : Option MsgInfo := none
  parts : Option (List MsgPart) := none

/-- The `tierDistribution` sub-object of the stats. -/
structure TierDist where
  tier1 : Nat := 0
  tier2 : Nat := 0
  tier3 : Nat := 0
deriving DecidableEq

/-- The source interface `ProcessingStats`. -/
structure ProcessingStats where
  originalCount : Nat := 0
  finalCount : Nat := 0
  totalChars : Nat := 0
  truncatedResults : Nat := 0
  removedMessages : Nat := 0
  compactionDetected : Bool := false
  compactionSliceIndex : Int := -1
  tierDistribution : TierDist := {}
  headTailApplied : Nat := 0
deriving DecidableEq

/-- Maximum characters in the formatted fork context. -/
def FORK_CHAR_BUDGET : Nat := 200000

/-- Below this character count, message removal is skipped entirely. -/
def FORK_CHAR_NO_REMOVAL : Nat := 120000

/-- Number of most recent tool results with unlimited content (tier 1). -/
def FORK_TIER1_COUNT : Nat := 5

/-- Number of next tool results with medium truncation (tier 2). -/
def FORK_TIER2_COUNT : Nat := 10

/-- Character limit for tier 2 tool results. -/
def FORK_TIER2_LIMIT : Nat := 3000

/-- Character limit for tier 3 (oldest) tool results. -/
def FORK_TIER3_LIMIT : Nat := 500

/-- Tool params character budget for tier 1. -/
def FORK_PARAMS_TIER1 : Nat := 500

/-- Tool params character budget for tier 2. -/
def FORK_PARAMS_TIER2 : Nat := 200

/-- Tool params character budget for tier 3. -/
def FORK_PARAMS_TIER3 : Nat := 100

/-- Error patterns that trigger head+tail truncation mode. -/
def FORK_ERROR_PATTERNS : List JSStr :=
  [jstr "error", jstr "Error", jstr "ERROR", jstr "failed", jstr "FAILED",
   jstr "exception", jstr "traceback"]

/-- Tool name keywords that trigger head+tail truncation mode. -/
def FORK_HEAD_TAIL_KEYWORDS : List JSStr := [jstr "bash", jstr "pty", jstr "exec"]

/-- Tool names whose results are never truncated. -/
def FORK_NO_TRUNCATION_TOOLS : List JSStr := [jstr "ask_user_questions"]

/-- Head share of the budget in head+tail mode: `Math.floor(limit * 0.8)`.
For the two limits the pipeline passes (3000 and 500) the IEEE-double product
`limit * 0.8` is exact (2400.0 and 400.0), so the integer computation
`limit * 4 / 5` coincides with the source. -/
def forkHeadSize (limit : Nat) : Nat := limit * 4 / 5

/-- Tail share of the budget in head+tail mode: `Math.floor(limit * 0.2)`.
For limits 3000 and 500 the IEEE-double product is exact (600.0 and 100.0),
so `limit / 5` coincides with the source. -/
def forkTailSize (limit : Nat) : Nat := limit / 5

/-- Whether a message contains a part of type `"compaction"`. -/
def hasCompactionPart (m : SessionMessage) : Bool :=
  match m.parts with
  | none => false
  | some ps => ps.any fun p => p.type == some (jstr "compaction")

/-- Backward scan of `findCompactionBoundary`: the index of the
chronologically latest message containing a compaction part, `-1` if none. -/
def findLatestCompaction : List SessionMessage → Int
  | [] => -1
  | m :: rest =>
    let r := findLatestCompaction rest
    if r ≥ 0 then r + 1
    else if hasCompactionPart m then 0 else -1

/-- Test for `msg.info?.role === "assistant" && msg.info?.summary === true`. -/
def isSummaryMessage (m : SessionMessage) : Bool :=
  match m.info with
  | none => false
  | some i => i.role == some (jstr "assistant") && i.summary == some true

/-- Forward scan of `findCompactionBoundary`: the index of the first summary
assistant message at position `start` or later, `-1` if none. -/
def findSummaryFrom (messages : List SessionMessage) (start : Nat) : Int :=
  match (messages.drop start).findIdx? isSummaryMessage with
  | some j => ((start + j : Nat) : Int)
  | none => -1

/-- Source function `findCompactionBoundary`: index of the summary assistant
message following the latest compaction marker, or `-1`. -/
def findCompactionBoundary (messages : List SessionMessage) : Int :=
  let compactionIndex := findLatestCompaction messages
  if compactionIndex < 0 then -1
  else findSummaryFrom messages (compactionIndex.toNat + 1)

/-- Source function `getToolResultTier`. The source passes
`totalToolResults - 1 - toolResultIndex` as a JS number; here the truncated
`Nat` subtraction is used, which yields tier 1 exactly when the JS value is
below `FORK_TIER1_COUNT` (a negative JS value and a truncated-to-0 `Nat`
both give tier 1). -/
def getToolResultTier (indexFromEnd : Nat) : Nat :=
  if indexFromEnd < FORK_TIER1_COUNT then 1
  else if indexFromEnd < FORK_TIER1_COUNT + FORK_TIER2_COUNT then 2
  else 3

/-- Source function `shouldUseHeadTail`: tool-name keyword match or error
pattern in the result text. -/
def shouldUseHeadTail (toolName : Option JSStr) (resultText : JSStr) : Bool :=
  (jsTruthy toolName && FORK_HEAD_TAIL_KEYWORDS.any fun kw => jsIncludes (toolName.getD []) kw)
  || FORK_ERROR_PATTERNS.any fun pat => jsIncludes resultText pat

/-- The elision marker the source interpolates into truncated text:
a newline, `...[truncated `, the decimal count, ` chars]...`. -/
def elisionMarker (count : Nat) : JSStr :=
  jstr "\n...[truncated " ++ (Nat.repr count).data ++ jstr " chars]..."

/-- Source function `truncateWithStrategy`. -/
def truncateWithStrategy (text : JSStr) (limit : Nat) (useHeadTail : Bool) : JSStr :=
  if text.length ≤ limit then text
  else if useHeadTail then
    let headSize := forkHeadSize limit
    let tailSize := forkTailSize limit
    let truncatedCount := text.length - headSize - tailSize
    let head := text.take headSize
    let tail := jsSliceNeg text tailSize
    head ++ elisionMarker truncatedCount ++ jstr "\n" ++ tail
  else
    text.take limit ++ elisionMarker (text.length - limit)

/-- Source function `countToolResults`: total `"tool_result"` parts over all
messages (the nested loops summed, flattened here). -/
def countToolResults (messages : List SessionMessage) : Nat :=
  (messages.flatMap fun m => m.parts.getD []).countP fun p => p.type == some (jstr "tool_result")

/-- Source function `isCompactedResult`. -/
def isCompactedResult (text : JSStr) : Bool :=
  jsIncludes text (jstr "[Old tool result content cleared]")

/-- Backward scan inside `resolveToolName`: checks parts at indices
`i - 1, i - 2, ..., 0` for the nearest preceding `"tool"` part; the argument
is the number of candidate indices. -/
def scanBackForTool (parts : List MsgPart) : Nat → Option JSStr
  | 0 => none
  | i + 1 =>
    match parts[i]? with
    | some p => if p.type == some (jstr "tool") then jsOrStr p.tool p.name else scanBackForTool parts i
    | none => scanBackForTool parts i

/-- Source function `resolveToolName`. -/
def resolveToolName (parts : List MsgPart) (toolResultPartIndex : Nat) : Option JSStr :=
  match parts[toolResultPartIndex]? with
  | some resultPart =>
    if jsTruthy resultPart.tool then resultPart.tool
    else if jsTruthy resultPart.name then resultPart.name
    else scanBackForTool parts toolResultPartIndex
  | none => scanBackForTool parts toolResultPartIndex

/-- Whether the part loop counts this part as a tool result
(`part.type === "tool_result" && part.text` truthy). -/
def countedPart (p : MsgPart) : Bool :=
  p.type == some (jstr "tool_result") && jsTruthy p.text

/-- The no-truncation check of the part loop:
`toolName && FORK_NO_TRUNCATION_TOOLS.some(name => toolName.includes(name))`. -/
def noTruncationTool (toolName : Option JSStr) : Bool :=
  jsTruthy toolName && FORK_NO_TRUNCATION_TOOLS.any fun nm => jsIncludes (toolName.getD []) nm

/-- The part produced by the body of the part loop for a counted tool result
at tool-result index `tri`, with `total` precomputed tool results and the
part at index `partIdx` of its message's `allParts`. -/
def stepPart (allParts : List MsgPart) (total partIdx tri : Nat) (p : MsgPart) : MsgPart :=
  let t := p.text.getD []
  if isCompactedResult t then p
  else
    let toolName := resolveToolName allParts partIdx
    let tier := getToolResultTier (total - 1 - tri)
    if tier = 1 then p
    else if noTruncationTool toolName then p
    else
      let limit := if tier = 2 then FORK_TIER2_LIMIT else FORK_TIER3_LIMIT
      let useHeadTail := shouldUseHeadTail toolName t
      { p with text := some (truncateWithStrategy t limit useHeadTail) }

/-- Increment of one tier counter. -/
def bumpTier (tier : Nat) (td : TierDist) : TierDist :=
  if tier = 1 then { td with tier1 := td.tier1 + 1 }
  else if tier = 2 then { td with tier2 := td.tier2 + 1 }
  else { td with tier3 := td.tier3 + 1 }

/-- The stats update performed by the body of the part loop for a counted
tool result (mirrors `stepPart` branch for branch). -/
def stepStats (allParts : List MsgPart) (total partIdx tri : Nat) (p : MsgPart)
    (stats : ProcessingStats) : ProcessingStats :=
  let t := p.text.getD []
  if isCompactedResult t then stats
  else
    let toolName := resolveToolName allParts partIdx
    let tier := getToolResultTier (total - 1 - tri)
    let stats1 := { stats with tierDistribution := bumpTier tier stats.tierDistribution }
    if tier = 1 then stats1
    else if noTruncationTool toolName then stats1
    else
      let limit := if tier = 2 then FORK_TIER2_LIMIT else FORK_TIER3_LIMIT
      let useHeadTail := shouldUseHeadTail toolName t
      let truncatedText := truncateWithStrategy t limit useHeadTail
      if truncatedText ≠ t then
        if useHeadTail then
          { stats1 with truncatedResults := stats1.truncatedResults + 1,
                        headTailApplied := stats1.headTailApplied + 1 }
        else { stats1 with truncatedResults := stats1.truncatedResults + 1 }
      else stats1

/-- The part loop of `processMessagesForFork` over one message's parts:
returns the processed parts, the updated tool-result index, and the updated
stats. Uncounted parts (wrong type or falsy text) are pushed unchanged. -/
def processParts (allParts : List MsgPart) (total : Nat) :
    List MsgPart → Nat → Nat → ProcessingStats → List MsgPart × Nat × ProcessingStats
  | [], _, tri, stats => ([], tri, stats)
  | p :: rest, partIdx, tri, stats =>
    if countedPart p then
      let p' := stepPart allParts total partIdx tri p
      let stats' := stepStats allParts total partIdx tri p stats
      let r := processParts allParts total rest (partIdx + 1) (tri + 1) stats'
      (p' :: r.1, r.2.1, r.2.2)
    else
      let r := processParts allParts total rest (partIdx + 1) tri stats
      (p :: r.1, r.2.1, r.2.2)

/-- The message loop of `processMessagesForFork` (stage 2, graduated
truncation): messages without a parts array are pushed unchanged. -/
def processMessagesAux (total : Nat) :
    List SessionMessage → Nat → ProcessingStats → List SessionMessage × Nat × ProcessingStats
  | [], tri, stats => ([], tri, stats)
  | msg :: rest, tri, stats =>
    match msg.parts with
    | none =>
      let r := processMessagesAux total rest tri stats
      (msg :: r.1, r.2.1, r.2.2)
    | some ps =>
      let rp := processParts ps total ps 0 tri stats
      let r := processMessagesAux total rest rp.2.1 rp.2.2
      ({ msg with parts := some rp.1 } :: r.1, r.2.1, r.2.2)

/-- Stage 1 slice: the working messages after compaction-boundary detection. -/
def slicedMessages (messages : List SessionMessage) : List SessionMessage :=
  let sliceIndex := findCompactionBoundary messages
  if sliceIndex ≥ 0 then messages.drop sliceIndex.toNat else messages

/-- The stats object as initialized at the top of `processMessagesForFork`. -/
def initialForkStats (messages : List SessionMessage) : ProcessingStats :=
  { originalCount := messages.length, finalCount := messages.length, totalChars := 0,
    truncatedResults := 0, removedMessages := 0, compactionDetected := false,
    compactionSliceIndex := -1, tierDistribution := {}, headTailApplied := 0 }

/-- Source function `processMessagesForFork`: stage 1 (boundary slice) then
stage 2 (graduated truncation). -/
def processMessagesForFork (messages : List SessionMessage) :
    List SessionMessage × ProcessingStats :=
  let stats0 := initialForkStats messages
  let sliceIndex := findCompactionBoundary messages
  let stats1 :=
    if sliceIndex ≥ 0 then
      { stats0 with compactionDetected := true, compactionSliceIndex := sliceIndex }
    else stats0
  let workingMessages := slicedMessages messages
  let totalToolResults := countToolResults workingMessages
  let r := processMessagesAux totalToolResults workingMessages 0 stats1
  (r.1, r.2.2)

/-- JS `role.charAt(0).toUpperCase() + role.slice(1)` (ASCII upcasing, which
agrees with JS on the role strings occurring here). -/
def capFirst (s : JSStr) : JSStr :=
  match s with
  | [] => []
  | c :: cs => c.toUpper :: cs

/-- The role label of `formatMessage`. -/
def roleLabelOf (role : JSStr) : JSStr :=
  if role == jstr "user" then jstr "User"
  else if role == jstr "assistant" then jstr "Agent"
  else capFirst role

/-- Body of the part loop inside `formatMessage`: the line pushed for one
part, if any. The parameter preview always uses `FORK_PARAMS_TIER3` (the
source's tier-3 default). -/
def renderPart (p : MsgPart) : Option JSStr :=
  if p.type == some (jstr "text") && jsTruthy p.text then some (p.text.getD [])
  else if p.type == some (jstr "tool") && jsTruthy p.tool then
    let paramsPreview : JSStr :=
      match p.stateInput with
      | none => []
      | some input =>
        let paramsStr := Json.stringify (Json.obj input)
        let limit := FORK_PARAMS_TIER3
        if paramsStr.length > limit then jstr " " ++ paramsStr.take limit ++ jstr "..."
        else jstr " " ++ paramsStr
    some (jstr "[Tool: " ++ p.tool.getD [] ++ jstr "]" ++ paramsPreview)
  else if p.type == some (jstr "tool_result") && jsTruthy p.text then
    some (jstr "[Tool result]\n" ++ p.text.getD [])
  else none

/-- Source helper `formatMessage` inside `formatMessagesAsContext`:
a role-label header line followed by the rendered parts, joined by `"\n"`. -/
def formatMessage (msg : SessionMessage) : JSStr :=
  let role :=
    match msg.info with
    | some i => i.role.getD (jstr "unknown")
    | none => jstr "unknown"
  let lines := (jstr "\n" ++ roleLabelOf role ++ jstr ":") :: (msg.parts.getD []).filterMap renderPart
  List.intercalate (jstr "\n") lines

/-- First pass of `formatMessagesAsContext`: the tool-result index to tier
assoc list. The source builds this map and then never reads it (the preview
limit in `renderPart` always defaults to `FORK_PARAMS_TIER3`). -/
def buildToolTierMapParts (total : Nat) : List MsgPart → Nat → List (Nat × Nat)
  | [], _ => []
  | p :: rest, tri =>
    if p.type == some (jstr "tool_result") then
      (tri, getToolResultTier (total - 1 - tri)) :: buildToolTierMapParts total rest (tri + 1)
    else buildToolTierMapParts total rest tri

/-- The whole-sequence tier map (flattened over the nested source loops). -/
def buildToolTierMap (messages : List SessionMessage) : List (Nat × Nat) :=
  buildToolTierMapParts (countToolResults messages)
    (messages.flatMap fun m => m.parts.getD []) 0

/-- Source helper `formatWithBudget`: wrap the concatenated message renderings
in the context delimiters and measure. -/
def formatWithBudget (msgs : List SessionMessage) : JSStr × Nat :=
  let formatted := (msgs.map formatMessage).flatten
  let wrapped := jstr "<inherited_context>" ++ formatted ++ jstr "\n</inherited_context>"
  (wrapped, wrapped.length)

/-- The budget-enforcement loop of `formatMessagesAsContext`: while the
character count exceeds `FORK_CHAR_BUDGET` and more than one message remains,
drop the oldest message and re-format. Returns the final text, character
count, final message count, and number of removals. -/
def evictLoop : List SessionMessage → Nat → JSStr × Nat × Nat × Nat
  | [], removed =>
    let r := formatWithBudget []
    (r.1, r.2, 0, removed)
  | [m], removed =>
    let r := formatWithBudget [m]
    (r.1, r.2, 1, removed)
  | m :: m2 :: rest, removed =>
    let r := formatWithBudget (m :: m2 :: rest)
    if r.2 > FORK_CHAR_BUDGET then evictLoop (m2 :: rest) (removed + 1)
    else (r.1, r.2, (m :: m2 :: rest).length, removed)

/-- Source function `formatMessagesAsContext` (stage 3, budget enforcement).
The unused tier map of the source is still built (`_tierMap`). -/
def formatMessagesAsContext (messages : List SessionMessage) (stats : ProcessingStats) :
    JSStr × ProcessingStats :=
  match messages with
  | [] => ([], { stats with finalCount := 0, totalChars := 0 })
  | _ :: _ =>
    let _tierMap := buildToolTierMap messages
    let r := formatWithBudget messages
    if r.2 ≤ FORK_CHAR_NO_REMOVAL then
      (r.1, { stats with totalChars := r.2, finalCount := messages.length })
    else
      let e := evictLoop messages 0
      let stats' := { stats with
        removedMessages := stats.removedMessages + e.2.2.2,
        totalChars := e.2.1,
        finalCount := e.2.2.1 }
      (e.1, stats')

/-- Texts of the parts the part loop counts, in order. -/
def countedTextsOfParts (ps : List MsgPart) : List JSStr :=
  ps.filterMap fun p => if countedPart p then some (p.text.getD []) else none

/-- Counted tool-result texts of a message sequence, in document order. -/
def countedTexts (messages : List SessionMessage) : List JSStr :=
  messages.flatMap fun m => countedTextsOfParts (m.parts.getD [])

/-- Specification fold describing how stage 2 updates the tier counters:
one bump per counted, not-yet-compacted text, at its running index. -/
def tierSpecFold (total : Nat) : List JSStr → Nat → TierDist → TierDist
  | [], _, td => td
  | t :: rest, tri, td =>
    tierSpecFold total rest (tri + 1)
      (if isCompactedResult t then td else bumpTier (getToolResultTier (total - 1 - tri)) td)

/-- Sum of the three tier counters. -/
def sumTierDist (td : TierDist) : Nat := td.tier1 + td.tier2 + td.tier3

/-- Hypothesis of the tier-assignment claims: every tool-result part carries
truthy text that does not contain the compaction sentinel. -/
def goodResults (messages : List SessionMessage) : Prop :=
  ∀ m ∈ messages, ∀ p ∈ m.parts.getD [], p.type = some (jstr "tool_result") →
    countedPart p = true ∧ isCompactedResult (p.text.getD []) = false

instance goodResultsDecidable (messages : List SessionMessage) :
    Decidable (goodResults messages) := by
  unfold goodResults
  infer_instance

/-- A 104-character field value, making the serialized parameters 112
characters long (over the tier-3 preview budget, within the tier-1 one). -/
def xC1 : String := String.mk (List.replicate 104 'x')

/-- The parameter record of the concrete tool invocation. -/
def paramsC1 : List (String × Json) := [("f", Json.str xC1)]

/-- A tool-invocation part naming the tool `read` with the long parameters. -/
def pToolC1 : MsgPart :=
  { type := some (jstr "tool"), tool := some (jstr "read"), stateInput := some paramsC1 }

/-- The corresponding tool-result part; being the only (hence newest) tool
result it belongs to tier 1. -/
def pResC1 : MsgPart :=
  { type := some (jstr "tool_result"), text := some (jstr "ok"), tool := some (jstr "read") }

/-- The message carrying the tier-1 tool invocation and its result. -/
def msgC1 : SessionMessage :=
  { info := some { role := some (jstr "user") }, parts := some [pToolC1, pResC1] }

/-- A tool result whose text is the compaction sentinel itself. -/
def pCompC2 : MsgPart :=
  { type := some (jstr "tool_result"), text := some (jstr "[Old tool result content cleared]") }

/-- A one-message sequence whose only tool result is already compacted. -/
def msgsC2 : List SessionMessage := [{ parts := some [pCompC2] }]

/-- A 3001-character tool-result text: one character over the tier-2 cap. -/
def tC3 : JSStr := List.replicate 3001 'a'

/-- The over-cap tool-result part used against the length claim. -/
def pC3 : MsgPart := { type := some (jstr "tool_result"), text := some tC3 }

/-- A minimal message for the budget-enforcement witness. -/
def mC4 : SessionMessage := { info := some { role := some (jstr "user") }, parts := none }

/-- A plain text message. -/
def mPlainC5 : SessionMessage :=
  { info := some { role := some (jstr "user") },
    parts := some [{ type := some (jstr "text"), text := some (jstr "hi") }] }

/-- A user message carrying a compaction-marker part. -/
def mCompC5 : SessionMessage :=
  { info := some { role := some (jstr "user") },
    parts := some [{ type := some (jstr "compaction") }] }

/-- The assistant summary message following the marker. -/
def mSumC5 : SessionMessage :=
  { info := some { role := some (jstr "assistant"), summary := some true },
    parts := some [{ type := some (jstr "text"), text := some (jstr "summary") }] }

/-- A four-message history with one boundary: marker at index 1, summary at
index 2. -/
def msgsC5 : List SessionMessage := [mPlainC5, mCompC5, mSumC5, mPlainC5]

/-- One small tool result, used to build well-formed result sequences. -/
def pResSmall : MsgPart := { type := some (jstr "tool_result"), text := some (jstr "r") }

/-- A message holding exactly one small tool result. -/
def mResSmall : SessionMessage :=
  { info := some { role := some (jstr "assistant") }, parts := some [pResSmall] }

/-- Sixteen messages with one good tool result each. -/
def msgs16 : List SessionMessage := List.replicate 16 mResSmall

/-- A 3001-character result produced by a `bash` tool: one character over the
tier-2 cap, selecting head+tail mode by tool-name keyword. -/
def pC7 : MsgPart :=
  { type := some (jstr "tool_result"), text := some (List.replicate 3001 'a'),
    tool := some (jstr "bash") }

/-- A result of an `ask_user_questions` tool, long enough that only the
no-truncation rule keeps it intact in tier 3. -/
def pC8 : MsgPart :=
  { type := some (jstr "tool_result"), text := some (List.replicate 600 'a'),
    tool := some (jstr "ask_user_questions") }

/-- An empty-text tool result: passed through and never counted. -/
def pEmptyC10 : MsgPart := { type := some (jstr "tool_result"), text := some [] }

/-- Fields of the stats other than the three counters are never touched by
the part-loop body. -/
theorem stepStats_untouched (allParts : List MsgPart) (total partIdx tri : Nat) (p : MsgPart)
    (stats : ProcessingStats) :
    (stepStats allParts total partIdx tri p stats).originalCount = stats.originalCount ∧
    (stepStats allParts total partIdx tri p stats).finalCount = stats.finalCount ∧
    (stepStats allParts total partIdx tri p stats).totalChars = stats.totalChars ∧
    (stepStats allParts total partIdx tri p stats).removedMessages = stats.removedMessages ∧
    (stepStats allParts total partIdx tri p stats).compactionDetected = stats.compactionDetected ∧
    (stepStats allParts total partIdx tri p stats).compactionSliceIndex
      = stats.compactionSliceIndex := by
  simp only [stepStats]
  split_ifs <;> simp

/-- The tier counters change exactly by the bump prescribed by the part's tier,
and only when the text is not already compacted. -/
theorem stepStats_tierDistribution (allParts : List MsgPart) (total partIdx tri : Nat)
    (p : MsgPart) (stats : ProcessingStats) :
    (stepStats allParts total partIdx tri p stats).tierDistribution =
      if isCompactedResult (p.text.getD []) then stats.tierDistribution
      else bumpTier (getToolResultTier (total - 1 - tri)) stats.tierDistribution := by
  simp only [stepStats]
  split_ifs <;> rfl

/-- A part whose text already contains the compaction sentinel is returned as is. -/
theorem stepPart_compacted (allParts : List MsgPart) (total partIdx tri : Nat) (p : MsgPart)
    (h : isCompactedResult (p.text.getD []) = true) :
    stepPart allParts total partIdx tri p = p := by
  simp only [stepPart]
  split_ifs <;> simp_all

/-- A tier-1 part is returned as is. -/
theorem stepPart_tier1 (allParts : List MsgPart) (total partIdx tri : Nat) (p : MsgPart)
    (h : getToolResultTier (total - 1 - tri) = 1) :
    stepPart allParts total partIdx tri p = p := by
  simp only [stepPart]
  split_ifs <;> simp_all

/-- A part whose resolved tool name matches the no-truncation list is
returned as is, in every tier. -/
theorem stepPart_noTrunc (allParts : List MsgPart) (total partIdx tri : Nat) (p : MsgPart)
    (h : noTruncationTool (resolveToolName allParts partIdx) = true) :
    stepPart allParts total partIdx tri p = p := by
  simp only [stepPart]
  split_ifs <;> simp_all

/-- In the truncating branch the produced part is the input with its text
replaced by the strategy truncation at the tier's limit. -/
theorem stepPart_truncating (allParts : List MsgPart) (total partIdx tri : Nat) (p : MsgPart)
    (hc : isCompactedResult (p.text.getD []) = false)
    (h1 : getToolResultTier (total - 1 - tri) ≠ 1)
    (hn : noTruncationTool (resolveToolName allParts partIdx) = false) :
    stepPart allParts total partIdx tri p =
      { p with text := some (truncateWithStrategy (p.text.getD [])
          (if getToolResultTier (total - 1 - tri) = 2 then FORK_TIER2_LIMIT else FORK_TIER3_LIMIT)
          (shouldUseHeadTail (resolveToolName allParts partIdx) (p.text.getD []))) } := by
  simp only [stepPart]
  split_ifs <;> simp_all

/-- Stats update in the compacted branch: nothing changes. -/
theorem stepStats_compacted (allParts : List MsgPart) (total partIdx tri : Nat) (p : MsgPart)
    (stats : ProcessingStats) (h : isCompactedResult (p.text.getD []) = true) :
    stepStats allParts total partIdx tri p stats = stats := by
  simp only [stepStats]
  split_ifs <;> simp_all

/-- In the no-truncation branch only the tier counter is bumped. -/
theorem stepStats_noTrunc (allParts : List MsgPart) (total partIdx tri : Nat) (p : MsgPart)
    (stats : ProcessingStats) (hc : isCompactedResult (p.text.getD []) = false)
    (hn : noTruncationTool (resolveToolName allParts partIdx) = true) :
    stepStats allParts total partIdx tri p stats =
      { stats with
        tierDistribution := bumpTier (getToolResultTier (total - 1 - tri)) stats.tierDistribution
      } := by
  simp only [stepStats]
  split_ifs <;> simp_all

/-- In the actually-truncating branch the truncation counter advances by one
and the head+tail counter advances exactly when the head+tail strategy was
selected. -/
theorem stepStats_truncating (allParts : List MsgPart) (total partIdx tri : Nat) (p : MsgPart)
    (stats : ProcessingStats) (hc : isCompactedResult (p.text.getD []) = false)
    (h1 : getToolResultTier (total - 1 - tri) ≠ 1)
    (hn : noTruncationTool (resolveToolName allParts partIdx) = false)
    (hne : truncateWithStrategy (p.text.getD [])
        (if getToolResultTier (total - 1 - tri) = 2 then FORK_TIER2_LIMIT else FORK_TIER3_LIMIT)
        (shouldUseHeadTail (resolveToolName allParts partIdx) (p.text.getD []))
        ≠ p.text.getD []) :
    (stepStats allParts total partIdx tri p stats).truncatedResults
        = stats.truncatedResults + 1 ∧
    (stepStats allParts total partIdx tri p stats).headTailApplied
        = stats.headTailApplied +
          (if shouldUseHeadTail (resolveToolName allParts partIdx) (p.text.getD [])
           then 1 else 0) := by
  simp only [stepStats]
  split_ifs <;> simp_all

/-- Splitting of the tier-specification fold over an append. -/
theorem tierSpecFold_append (total : Nat) (a : List JSStr) :
    ∀ (b : List JSStr) (tri : Nat) (td : TierDist),
      tierSpecFold total (a ++ b) tri td
        = tierSpecFold total b (tri + a.length) (tierSpecFold total a tri td) := by
  induction a with
  | nil => intro b tri td; simp [tierSpecFold]
  | cons t rest ih =>
    intro b tri td
    simp only [List.cons_append, tierSpecFold, List.length_cons, List.append_eq]
    rw [ih]
    congr 1
    omega

/-- Master description of the part loop: output length, tool-result index
advance, tier counters via the specification fold, untouched stats fields. -/
theorem processParts_eq (allParts : List MsgPart) (total : Nat) :
    ∀ (ps : List MsgPart) (partIdx tri : Nat) (stats : ProcessingStats),
      (processParts allParts total ps partIdx tri stats).1.length = ps.length ∧
      (processParts allParts total ps partIdx tri stats).2.1
        = tri + (countedTextsOfParts ps).length ∧
      (processParts allParts total ps partIdx tri stats).2.2.tierDistribution
        = tierSpecFold total (countedTextsOfParts ps) tri stats.tierDistribution ∧
      (processParts allParts total ps partIdx tri stats).2.2.originalCount
        = stats.originalCount ∧
      (processParts allParts total ps partIdx tri stats).2.2.finalCount = stats.finalCount ∧
      (processParts allParts total ps partIdx tri stats).2.2.totalChars = stats.totalChars ∧
      (processParts allParts total ps partIdx tri stats).2.2.removedMessages
        = stats.removedMessages ∧
      (processParts allParts total ps partIdx tri stats).2.2.compactionDetected
        = stats.compactionDetected ∧
      (processParts allParts total ps partIdx tri stats).2.2.compactionSliceIndex
        = stats.compactionSliceIndex := by
  intro ps
  induction ps with
  | nil => intro partIdx tri stats; simp [processParts, countedTextsOfParts, tierSpecFold]
  | cons p rest ih =>
    intro partIdx tri stats
    by_cases hcp : countedPart p = true
    · have hu := stepStats_untouched allParts total partIdx tri p stats
      have htd := stepStats_tierDistribution allParts total partIdx tri p stats
      obtain ⟨ih1, ih2, ih3, ih4, ih5, ih6, ih7, ih8, ih9⟩ :=
        ih (partIdx + 1) (tri + 1) (stepStats allParts total partIdx tri p stats)
      simp only [processParts, hcp, if_true, countedTextsOfParts, List.filterMap_cons]
      simp only [countedTextsOfParts] at ih1 ih2 ih3
      refine ⟨by simpa using ih1, ?_, ?_, by simpa [hu.1] using ih4,
        by simpa [hu.2.1] using ih5, by simpa [hu.2.2.1] using ih6,
        by simpa [hu.2.2.2.1] using ih7, by simpa [hu.2.2.2.2.1] using ih8,
        by simpa [hu.2.2.2.2.2] using ih9⟩
      · simp only [List.length_cons]
        rw [ih2]
        omega
      · simp only [List.length_cons, tierSpecFold]
        rw [ih3, htd]
    · have hcp' : countedPart p = false := by simpa using hcp
      obtain ⟨ih1, ih2, ih3, ih4, ih5, ih6, ih7, ih8, ih9⟩ := ih (partIdx + 1) tri stats
      simp only [processParts, hcp', Bool.false_eq_true, if_false, countedTextsOfParts,
        List.filterMap_cons]
      simp only [countedTextsOfParts] at ih1 ih2 ih3
      exact ⟨by simpa using ih1, by simpa using ih2, by simpa using ih3, ih4, ih5, ih6,
        ih7, ih8, ih9⟩

/-- Master description of the message loop of stage 2. -/
theorem processMessagesAux_eq (total : Nat) :
    ∀ (msgs : List SessionMessage) (tri : Nat) (stats : ProcessingStats),
      (processMessagesAux total msgs tri stats).1.length = msgs.length ∧
      (processMessagesAux total msgs tri stats).2.1 = tri + (countedTexts msgs).length ∧
      (processMessagesAux total msgs tri stats).2.2.tierDistribution
        = tierSpecFold total (countedTexts msgs) tri stats.tierDistribution ∧
      (processMessagesAux total msgs tri stats).2.2.originalCount = stats.originalCount ∧
      (processMessagesAux total msgs tri stats).2.2.finalCount = stats.finalCount ∧
      (processMessagesAux total msgs tri stats).2.2.totalChars = stats.totalChars ∧
      (processMessagesAux total msgs tri stats).2.2.removedMessages = stats.removedMessages ∧
      (processMessagesAux total msgs tri stats).2.2.compactionDetected
        = stats.compactionDetected ∧
      (processMessagesAux total msgs tri stats).2.2.compactionSliceIndex
        = stats.compactionSliceIndex := by
  intro msgs
  induction msgs with
  | nil => intro tri stats; simp [processMessagesAux, countedTexts, tierSpecFold]
  | cons msg rest ih =>
    intro tri stats
    rcases hmp : msg.parts with _ | ps
    · obtain ⟨ih1, ih2, ih3, ih4, ih5, ih6, ih7, ih8, ih9⟩ := ih tri stats
      simp only [processMessagesAux, hmp, countedTexts, List.flatMap_cons, Option.getD_none,
        countedTextsOfParts, List.filterMap_nil, List.nil_append]
      simp only [countedTexts] at ih1 ih2 ih3
      exact ⟨by simpa using ih1, ih2, ih3, ih4, ih5, ih6, ih7, ih8, ih9⟩
    · obtain ⟨pp1, pp2, pp3, pp4, pp5, pp6, pp7, pp8, pp9⟩ :=
        processParts_eq ps total ps 0 tri stats
      obtain ⟨ih1, ih2, ih3, ih4, ih5, ih6, ih7, ih8, ih9⟩ :=
        ih (processParts ps total ps 0 tri stats).2.1 (processParts ps total ps 0 tri stats).2.2
      simp only [processMessagesAux, hmp, countedTexts, List.flatMap_cons, Option.getD_some]
      simp only [countedTexts] at ih1 ih2 ih3
      refine ⟨by simpa using ih1, ?_, ?_, by rw [ih4, pp4], by rw [ih5, pp5],
        by rw [ih6, pp6], by rw [ih7, pp7], by rw [ih8, pp8], by rw [ih9, pp9]⟩
      · rw [ih2, pp2, List.length_append]
        omega
      · rw [ih3, pp3, tierSpecFold_append, pp2]

/-- Bumping any tier raises the counter sum by one. -/
theorem sumTierDist_bumpTier (k : Nat) (td : TierDist) :
    sumTierDist (bumpTier k td) = sumTierDist td + 1 := by
  unfold bumpTier sumTierDist
  split_ifs <;> simp <;> omega

/-- The counter sum after the specification fold counts exactly the
not-yet-compacted texts. -/
theorem sumTierDist_tierSpecFold (total : Nat) (cs : List JSStr) :
    ∀ (tri : Nat) (td : TierDist),
      sumTierDist (tierSpecFold total cs tri td)
        = sumTierDist td + cs.countP fun t => !isCompactedResult t := by
  induction cs with
  | nil => intro tri td; simp [tierSpecFold]
  | cons t rest ih =>
    intro tri td
    rcases hct : isCompactedResult t with _ | _
    · simp only [tierSpecFold, hct, Bool.false_eq_true, if_false, ih, sumTierDist_bumpTier,
        List.countP_cons, hct]
      simp
      omega
    · simp only [tierSpecFold, hct, if_true, ih, List.countP_cons, hct]
      simp

/-- Tier-1 projection of a bump. -/
theorem bumpTier_tier1 (k : Nat) (td : TierDist) :
    (bumpTier k td).tier1 = td.tier1 + (if k = 1 then 1 else 0) := by
  unfold bumpTier
  split_ifs <;> simp_all

/-- Tier-2 projection of a bump. -/
theorem bumpTier_tier2 (k : Nat) (td : TierDist) :
    (bumpTier k td).tier2 = td.tier2 + (if k = 2 then 1 else 0) := by
  unfold bumpTier
  split_ifs <;> simp_all

/-- Tier-3 projection of a bump. -/
theorem bumpTier_tier3 (k : Nat) (td : TierDist) :
    (bumpTier k td).tier3 = td.tier3 + (if k ≠ 1 ∧ k ≠ 2 then 1 else 0) := by
  unfold bumpTier
  split_ifs <;> simp_all

/-- Tier counters after the fold on a compaction-free text list: each tier
counts the running indices whose distance from the end falls in its band. -/
theorem tierSpecFold_clean (total : Nat) (cs : List JSStr)
    (hclean : ∀ t ∈ cs, isCompactedResult t = false) :
    ∀ (tri : Nat) (td : TierDist),
      (tierSpecFold total cs tri td).tier1
        = td.tier1 + ((List.range cs.length).countP
            fun j => getToolResultTier (total - 1 - (tri + j)) == 1) ∧
      (tierSpecFold total cs tri td).tier2
        = td.tier2 + ((List.range cs.length).countP
            fun j => getToolResultTier (total - 1 - (tri + j)) == 2) ∧
      (tierSpecFold total cs tri td).tier3
        = td.tier3 + ((List.range cs.length).countP
            fun j => getToolResultTier (total - 1 - (tri + j)) == 3) := by
  induction cs with
  | nil => intro tri td; simp [tierSpecFold]
  | cons t rest ih =>
    intro tri td
    have hct : isCompactedResult t = false := hclean t (List.mem_cons_self t rest)
    have hrest : ∀ t ∈ rest, isCompactedResult t = false := fun x hx =>
      hclean x (List.mem_cons_of_mem t hx)
    obtain ⟨ih1, ih2, ih3⟩ := ih hrest (tri + 1)
      (bumpTier (getToolResultTier (total - 1 - tri)) td)
    simp only [tierSpecFold, hct, Bool.false_eq_true, if_false, List.length_cons,
      List.range_succ_eq_map, List.countP_cons, List.countP_map]
    have hshift : ∀ j : Nat, tri + 1 + j = tri + (j + 1) := by omega
    have tier3cases : getToolResultTier (total - 1 - tri) = 1
        ∨ getToolResultTier (total - 1 - tri) = 2
        ∨ getToolResultTier (total - 1 - tri) = 3 := by
      unfold getToolResultTier
      split_ifs <;> simp
    have hcomp : ∀ v : Nat, ((List.range rest.length).countP
          ((fun j => getToolResultTier (total - 1 - (tri + j)) == v) ∘ Nat.succ))
        = ((List.range rest.length).countP
          fun j => getToolResultTier (total - 1 - (tri + 1 + j)) == v) := by
      intro v
      refine List.countP_congr fun j _ => ?_
      simp only [Function.comp_apply]
      have hj : tri + Nat.succ j = tri + 1 + j := by omega
      rw [hj]
    refine ⟨?_, ?_, ?_⟩
    · rw [ih1, bumpTier_tier1, hcomp 1]
      rcases tier3cases with h | h | h <;> simp [h] <;> omega
    · rw [ih2, bumpTier_tier2, hcomp 2]
      rcases tier3cases with h | h | h <;> simp [h] <;> omega
    · rw [ih3, bumpTier_tier3, hcomp 3]
      rcases tier3cases with h | h | h <;> simp [h] <;> omega

/-- Length of a filterMap as a count. -/
theorem length_filterMap_countP {α β : Type} (f : α → Option β) (l : List α) :
    (l.filterMap f).length = l.countP fun a => (f a).isSome := by
  induction l with
  | nil => simp
  | cons a rest ih =>
    rcases hf : f a with _ | b <;> simp [List.filterMap_cons, hf, List.countP_cons, ih]

/-- Under the goodness hypothesis every tool-result part is counted, so the
counted texts are as many as the tool results. -/
theorem countedTexts_length_of_good (msgs : List SessionMessage) (hg : goodResults msgs) :
    (countedTexts msgs).length = countToolResults msgs := by
  induction msgs with
  | nil => simp [countedTexts, countToolResults]
  | cons m rest ih =>
    have hgm : ∀ p ∈ m.parts.getD [], p.type = some (jstr "tool_result") →
        countedPart p = true ∧ isCompactedResult (p.text.getD []) = false :=
      hg m (List.mem_cons_self m rest)
    have hgrest : goodResults rest := fun x hx => hg x (List.mem_cons_of_mem m hx)
    have hper : (countedTextsOfParts (m.parts.getD [])).length
        = (m.parts.getD []).countP fun p => p.type == some (jstr "tool_result") := by
      rw [countedTextsOfParts, length_filterMap_countP]
      refine List.countP_congr fun p hp => ?_
      by_cases ht : p.type = some (jstr "tool_result")
      · have := (hgm p hp ht).1
        simp [this, ht]
      · have hcf : countedPart p = false := by
          unfold countedPart
          simp only [Bool.and_eq_false_iff]
          left
          simpa using ht
        simp [hcf, ht]
    simp only [countedTexts, countToolResults, List.flatMap_cons, List.length_append,
      List.countP_append] at *
    rw [hper, ih hgrest]

/-- Under the goodness hypothesis no counted text carries the sentinel. -/
theorem countedTexts_clean_of_good (msgs : List SessionMessage) (hg : goodResults msgs) :
    ∀ t ∈ countedTexts msgs, isCompactedResult t = false := by
  intro t ht
  rw [countedTexts, List.mem_flatMap] at ht
  obtain ⟨m, hm, hmt⟩ := ht
  rw [countedTextsOfParts, List.mem_filterMap] at hmt
  obtain ⟨p, hp, hpt⟩ := hmt
  by_cases hcp : countedPart p = true
  · simp only [hcp, if_true, Option.some_inj] at hpt
    have htype : p.type = some (jstr "tool_result") := by
      have := hcp
      unfold countedPart at this
      simp only [Bool.and_eq_true, beq_iff_eq] at this
      exact this.1
    have := (hg m hm p hp htype).2
    rwa [hpt] at this
  · simp [hcp] at hpt

/-- Distances below the tier-1 count give tier 1. -/
theorem getToolResultTier_eq_one (d : Nat) (h : d < FORK_TIER1_COUNT) :
    getToolResultTier d = 1 := by
  unfold getToolResultTier
  simp [h]

/-- Distances in the tier-2 band give tier 2. -/
theorem getToolResultTier_eq_two (d : Nat) (h1 : FORK_TIER1_COUNT ≤ d)
    (h2 : d < FORK_TIER1_COUNT + FORK_TIER2_COUNT) : getToolResultTier d = 2 := by
  unfold getToolResultTier
  rw [if_neg (by omega), if_pos h2]

/-- Distances past both bands give tier 3. -/
theorem getToolResultTier_eq_three (d : Nat) (h : FORK_TIER1_COUNT + FORK_TIER2_COUNT ≤ d) :
    getToolResultTier d = 3 := by
  unfold getToolResultTier
  rw [if_neg (by omega), if_neg (by omega)]

/-- With at most five tool results in total, the part loop returns every part
unchanged (tier 1 everywhere; compacted parts are unchanged anyway). -/
theorem processParts_id_of_small (allParts : List MsgPart) (total : Nat)
    (h : total ≤ FORK_TIER1_COUNT) :
    ∀ (ps : List MsgPart) (partIdx tri : Nat) (stats : ProcessingStats),
      (processParts allParts total ps partIdx tri stats).1 = ps := by
  intro ps
  induction ps with
  | nil => intro partIdx tri stats; simp [processParts]
  | cons p rest ih =>
    intro partIdx tri stats
    have htier : getToolResultTier (total - 1 - tri) = 1 := by
      refine getToolResultTier_eq_one _ ?_
      unfold FORK_TIER1_COUNT at h ⊢
      omega
    by_cases hcp : countedPart p = true
    · simp only [processParts, hcp, if_true]
      rw [stepPart_tier1 allParts total partIdx tri p htier, ih]
    · have hcp' : countedPart p = false := by simpa using hcp
      simp only [processParts, hcp', Bool.false_eq_true, if_false]
      rw [ih]

/-- With at most five tool results in total, stage 2 returns the message
sequence unchanged. -/
theorem processMessagesAux_id_of_small (total : Nat) (h : total ≤ FORK_TIER1_COUNT) :
    ∀ (msgs : List SessionMessage) (tri : Nat) (stats : ProcessingStats),
      (processMessagesAux total msgs tri stats).1 = msgs := by
  intro msgs
  induction msgs with
  | nil => intro tri stats; simp [processMessagesAux]
  | cons msg rest ih =>
    intro tri stats
    rcases hmp : msg.parts with _ | ps
    · simp only [processMessagesAux, hmp]
      rw [ih]
    · simp only [processMessagesAux, hmp]
      rw [processParts_id_of_small ps total h, ih]
      cases msg with
      | mk info parts =>
        simp only at hmp
        rw [hmp]

/-- Without any compaction part the backward scan reports the sentinel. -/
theorem findLatestCompaction_of_none (msgs : List SessionMessage)
    (h : ∀ m ∈ msgs, hasCompactionPart m = false) : findLatestCompaction msgs = -1 := by
  induction msgs with
  | nil => rfl
  | cons m rest ih =>
    have hrest := ih fun x hx => h x (List.mem_cons_of_mem m hx)
    have hm := h m (List.mem_cons_self m rest)
    simp [findLatestCompaction, hrest, hm]

/-- The backward scan returns the index of the latest message containing a
compaction part. -/
theorem findLatestCompaction_of_latest (msgs : List SessionMessage) :
    ∀ (i : Nat) (mi : SessionMessage), msgs[i]? = some mi → hasCompactionPart mi = true →
      (∀ (k : Nat) (mk' : SessionMessage), i < k → msgs[k]? = some mk' →
        hasCompactionPart mk' = false) →
      findLatestCompaction msgs = (i : Int) := by
  induction msgs with
  | nil => intro i mi hm; simp at hm
  | cons m rest ih =>
    intro i mi hm hc hafter
    cases i with
    | zero =>
      simp only [List.getElem?_cons_zero, Option.some_inj] at hm
      have hrest : findLatestCompaction rest = -1 := by
        refine findLatestCompaction_of_none rest fun x hx => ?_
        obtain ⟨k, hk⟩ := List.getElem?_of_mem hx
        exact hafter (k + 1) x (by omega) (by simpa using hk)
      rw [← hm] at hc
      simp [findLatestCompaction, hrest, hc]
    | succ i' =>
      have hm' : rest[i']? = some mi := by simpa using hm
      have hafter' : ∀ (k : Nat) (mk' : SessionMessage), i' < k → rest[k]? = some mk' →
          hasCompactionPart mk' = false := by
        intro k mk' hik hk
        exact hafter (k + 1) mk' (by omega) (by simpa using hk)
      have hrest := ih i' mi hm' hc hafter'
      simp only [findLatestCompaction, hrest]
      rw [if_pos (by omega)]
      push_cast
      ring

/-- Failing forward scan for an index: no element satisfies the predicate. -/
theorem findIdxQ_of_none {α : Type} (p : α → Bool) (l : List α)
    (h : ∀ x ∈ l, p x = false) : ∀ start : Nat, l.findIdx? p start = none := by
  induction l with
  | nil => intro start; rfl
  | cons a rest ih =>
    intro start
    have ha := h a (List.mem_cons_self a rest)
    have hrest := ih fun x hx => h x (List.mem_cons_of_mem a hx)
    simp [List.findIdx?, ha, hrest]

/-- Successful forward scan: the first satisfying index is reported, shifted
by the start offset. -/
theorem findIdxQ_of_first {α : Type} (p : α → Bool) (l : List α) :
    ∀ (j : Nat) (x : α), l[j]? = some x → p x = true →
      (∀ (k : Nat) (y : α), k < j → l[k]? = some y → p y = false) →
      ∀ start : Nat, l.findIdx? p start = some (start + j) := by
  induction l with
  | nil => intro j x hj; simp at hj
  | cons a rest ih =>
    intro j x hj hx hbefore start
    cases j with
    | zero =>
      simp only [List.getElem?_cons_zero, Option.some_inj] at hj
      rw [← hj] at hx
      simp [List.findIdx?, hx]
    | succ j' =>
      have ha : p a = false := hbefore 0 a (by omega) (by simp)
      have hj' : rest[j']? = some x := by simpa using hj
      have hbefore' : ∀ (k : Nat) (y : α), k < j' → rest[k]? = some y → p y = false := by
        intro k y hk hky
        exact hbefore (k + 1) y (by omega) (by simpa using hky)
      have := ih j' x hj' hx hbefore' (start + 1)
      simp only [List.findIdx?, ha, Bool.false_eq_true, if_false]
      rw [this]
      congr 1
      omega

/-- The format helper returns the wrapped text together with its length. -/
theorem formatWithBudget_charCount (msgs : List SessionMessage) :
    (formatWithBudget msgs).2 = (formatWithBudget msgs).1.length := rfl

/-- Every formatted result starts with the opening delimiter and ends with
the closing delimiter. -/
theorem formatWithBudget_delimited (msgs : List SessionMessage) :
    jstr "<inherited_context>" <+: (formatWithBudget msgs).1 ∧
    jstr "</inherited_context>" <:+ (formatWithBudget msgs).1 := by
  constructor
  · exact List.prefix_append _ _
  · have h1 : jstr "</inherited_context>" <:+ jstr "\n</inherited_context>" := ⟨['\n'], rfl⟩
    have h2 : jstr "\n</inherited_context>"
        <:+ (msgs.map formatMessage).flatten ++ jstr "\n</inherited_context>" :=
      List.suffix_append _ _
    have h3 : (msgs.map formatMessage).flatten ++ jstr "\n</inherited_context>"
        <:+ jstr "<inherited_context>"
          ++ ((msgs.map formatMessage).flatten ++ jstr "\n</inherited_context>") :=
      List.suffix_append _ _
    exact (h1.trans h2).trans h3

/-- Invariant of the eviction loop: the reported character count is the
length of the returned text; the loop stops only under budget or with a
single message left; the text stays delimited; the final count is the
length of the surviving messages. -/
theorem evictLoop_invariant :
    ∀ (msgs : List SessionMessage) (removed : Nat), msgs ≠ [] →
      (evictLoop msgs removed).2.1 = (evictLoop msgs removed).1.length ∧
      ((evictLoop msgs removed).2.1 ≤ FORK_CHAR_BUDGET ∨
        (evictLoop msgs removed).2.2.1 = 1) ∧
      jstr "<inherited_context>" <+: (evictLoop msgs removed).1 ∧
      jstr "</inherited_context>" <:+ (evictLoop msgs removed).1 := by
  intro msgs
  induction msgs with
  | nil => intro removed h; exact absurd rfl h
  | cons m tail ih =>
    intro removed _
    cases tail with
    | nil =>
      refine ⟨rfl, Or.inr rfl, ?_, ?_⟩
      · exact (formatWithBudget_delimited [m]).1
      · exact (formatWithBudget_delimited [m]).2
    | cons m2 rest =>
      by_cases hover : (formatWithBudget (m :: m2 :: rest)).2 > FORK_CHAR_BUDGET
      · have := ih (removed + 1) (by simp)
        simpa [evictLoop, hover] using this
      · have hle : (formatWithBudget (m :: m2 :: rest)).2 ≤ FORK_CHAR_BUDGET := by omega
        refine ⟨?_, ?_, ?_, ?_⟩ <;> simp only [evictLoop, hover, if_false]
        · rfl
        · exact Or.inl hle
        · exact (formatWithBudget_delimited (m :: m2 :: rest)).1
        · exact (formatWithBudget_delimited (m :: m2 :: rest)).2

/-- Fuel-indexed digit-count bound for the core decimal printer. -/
theorem toDigitsCore_length_le :
    ∀ (fuel n k : Nat) (ds : List Char), 1 ≤ k → k ≤ fuel → n < 10 ^ k →
      (Nat.toDigitsCore 10 fuel n ds).length ≤ ds.length + k := by
  intro fuel
  induction fuel with
  | zero => intro n k ds h1 h2; omega
  | succ fuel ih =>
    intro n k ds h1 h2 h3
    rw [Nat.toDigitsCore]
    by_cases hz : n / 10 = 0
    · simp only [hz, if_pos]
      simp only [List.length_cons]
      omega
    · rw [if_neg hz]
      have hn : 10 ≤ n := by
        by_contra hlt
        push_neg at hlt
        interval_cases n <;> simp_all
      have hk2 : 2 ≤ k := by
        by_contra hlt
        push_neg at hlt
        have : k = 1 := by omega
        rw [this] at h3
        simp at h3
        omega
      have hdiv : n / 10 < 10 ^ (k - 1) := by
        refine Nat.div_lt_of_lt_mul ?_
        have : 10 ^ k = 10 * 10 ^ (k - 1) := by
          rw [← pow_succ']
          congr 1
          omega
        omega
      have := ih (n / 10) (k - 1) ((n % 10).digitChar :: ds) (by omega) (by omega) hdiv
      simp only [List.length_cons] at this
      omega

/-- Decimal digit count of `n` is at most `log 10 n + 1`. -/
theorem repr_length_le (n : Nat) : ((Nat.repr n).data).length ≤ Nat.log 10 n + 1 := by
  rcases Nat.eq_zero_or_pos n with h0 | hpos
  · subst h0; simp [Nat.repr, Nat.toDigits, Nat.toDigitsCore]
  · have h1 : n < 10 ^ (Nat.log 10 n + 1) := Nat.lt_pow_succ_log_self (by omega) n
    have h2 : Nat.log 10 n + 1 ≤ n + 1 := by
      have := Nat.log_le_self 10 n
      omega
    have := toDigitsCore_length_le (n + 1) n (Nat.log 10 n + 1) [] (by omega) h2 h1
    simpa [Nat.repr, Nat.toDigits] using this

/-- Exponential growth bound used to compare digit counts with the count. -/
theorem pow_ten_gt (k : Nat) (hk : 2 ≤ k) : k + 27 < 10 ^ k := by
  induction k with
  | zero => omega
  | succ k ih =>
    rcases Nat.lt_or_ge k 2 with h | h
    · interval_cases k <;> simp_all <;> omega
    · have := ih h
      have : 10 ^ (k + 1) = 10 * 10 ^ k := by ring
      omega

/-- For counts of at least 28 the digit representation is more than 25
characters shorter than the count itself. -/
theorem digits_lt_self_sub_25 (n : Nat) (h : 28 ≤ n) :
    25 + ((Nat.repr n).data).length < n := by
  have hlen := repr_length_le n
  rcases Nat.lt_or_ge (Nat.log 10 n) 2 with hlog | hlog
  · omega
  · have hpow := pow_ten_gt (Nat.log 10 n) hlog
    have hle : 10 ^ Nat.log 10 n ≤ n := Nat.pow_log_le_self 10 (by omega)
    omega

/-- For counts of at least 29 the margin grows to 26 characters. -/
theorem digits_lt_self_sub_26 (n : Nat) (h : 29 ≤ n) :
    26 + ((Nat.repr n).data).length < n := by
  have hlen := repr_length_le n
  rcases Nat.lt_or_ge (Nat.log 10 n) 2 with hlog | hlog
  · omega
  · have hpow := pow_ten_gt (Nat.log 10 n) hlog
    have hle : 10 ^ Nat.log 10 n ≤ n := Nat.pow_log_le_self 10 (by omega)
    omega

/-- Length of the elision marker: 25 characters plus the digit count. -/
theorem elisionMarker_length (n : Nat) :
    (elisionMarker n).length = 25 + ((Nat.repr n).data).length := by
  have h1 : (jstr "\n...[truncated ").length = 15 := rfl
  have h2 : (jstr " chars]...").length = 10 := rfl
  simp only [elisionMarker, List.length_append, h1, h2]
  omega

/-- Substring test unfolded to the infix relation. -/
theorem jsIncludes_iff (s sub : JSStr) : jsIncludes s sub = true ↔ sub <:+: s := by
  simp [jsIncludes]

/-- A substring containing a character absent from the text never occurs. -/
theorem jsIncludes_false_of_not_mem (s sub : JSStr) (c : Char) (hc : c ∈ sub) (hs : c ∉ s) :
    jsIncludes s sub = false := by
  simp only [jsIncludes, decide_eq_false_iff_not]
  intro h
  exact hs (h.sublist.subset hc)

/-- Texts made of repeated `'a'` never contain the compaction sentinel. -/
theorem isCompactedResult_replicate_a (n : Nat) :
    isCompactedResult (List.replicate n 'a') = false := by
  refine jsIncludes_false_of_not_mem _ _ '[' (by decide) ?_
  simp [List.mem_replicate]

/-- Texts made of repeated `'a'` with no tool name select head-only mode. -/
theorem shouldUseHeadTail_none_replicate_a (n : Nat) :
    shouldUseHeadTail none (List.replicate n 'a') = false := by
  unfold shouldUseHeadTail
  have hpat : ∀ pat ∈ FORK_ERROR_PATTERNS, jsIncludes (List.replicate n 'a') pat = false := by
    intro pat hp
    rw [FORK_ERROR_PATTERNS] at hp
    simp only [List.mem_cons, List.not_mem_nil, or_false] at hp
    rcases hp with h | h | h | h | h | h | h <;> subst h <;>
      first
      | exact jsIncludes_false_of_not_mem _ _ 'e' (by decide) (by simp [List.mem_replicate])
      | exact jsIncludes_false_of_not_mem _ _ 'E' (by decide) (by simp [List.mem_replicate])
      | exact jsIncludes_false_of_not_mem _ _ 'f' (by decide) (by simp [List.mem_replicate])
      | exact jsIncludes_false_of_not_mem _ _ 'F' (by decide) (by simp [List.mem_replicate])
      | exact jsIncludes_false_of_not_mem _ _ 't' (by decide) (by simp [List.mem_replicate])
  have hany : FORK_ERROR_PATTERNS.any (fun pat => jsIncludes (List.replicate n 'a') pat)
      = false := by
    rw [List.any_eq_false]
    intro pat hp
    simp [hpat pat hp]
  simp [jsTruthy, hany]

/-- Head-only truncation unfolded, for over-limit text. -/
theorem truncateWithStrategy_headOnly (t : JSStr) (limit : Nat) (h : limit < t.length) :
    truncateWithStrategy t limit false
      = t.take limit ++ elisionMarker (t.length - limit) := by
  unfold truncateWithStrategy
  rw [if_neg (by omega)]
  simp

/-- Head+tail truncation unfolded, for over-limit text. -/
theorem truncateWithStrategy_headTail (t : JSStr) (limit : Nat) (h : limit < t.length) :
    truncateWithStrategy t limit true
      = t.take (forkHeadSize limit)
        ++ elisionMarker (t.length - forkHeadSize limit - forkTailSize limit)
        ++ jstr "\n" ++ jsSliceNeg t (forkTailSize limit) := by
  unfold truncateWithStrategy
  rw [if_neg (by omega)]
  simp

/-- Length of a tier-2 head-only truncation. -/
theorem truncLength_tier2_headOnly (t : JSStr) (h : FORK_TIER2_LIMIT < t.length) :
    (truncateWithStrategy t FORK_TIER2_LIMIT false).length
      = 3025 + ((Nat.repr (t.length - 3000)).data).length := by
  rw [truncateWithStrategy_headOnly t _ h]
  rw [List.length_append, List.length_take, elisionMarker_length]
  unfold FORK_TIER2_LIMIT at *
  omega

/-- Length of a tier-2 head+tail truncation. -/
theorem truncLength_tier2_headTail (t : JSStr) (h : FORK_TIER2_LIMIT < t.length) :
    (truncateWithStrategy t FORK_TIER2_LIMIT true).length
      = 3026 + ((Nat.repr (t.length - 3000)).data).length := by
  rw [truncateWithStrategy_headTail t _ h]
  have hhead : forkHeadSize FORK_TIER2_LIMIT = 2400 := rfl
  have htail : forkTailSize FORK_TIER2_LIMIT = 600 := rfl
  have hcount : t.length - forkHeadSize FORK_TIER2_LIMIT - forkTailSize FORK_TIER2_LIMIT
      = t.length - 3000 := by
    rw [hhead, htail]
    omega
  have hslice : (jsSliceNeg t (forkTailSize FORK_TIER2_LIMIT)).length = 600 := by
    rw [htail, jsSliceNeg, if_neg (by omega), List.length_drop]
    unfold FORK_TIER2_LIMIT at h
    omega
  rw [hcount]
  simp only [List.length_append, List.length_take, elisionMarker_length, hslice, hhead]
  have h1 : (jstr "\n").length = 1 := rfl
  rw [h1]
  unfold FORK_TIER2_LIMIT at h
  omega

/-- The marker occurs in every head-only truncation of over-limit text. -/
theorem marker_in_headOnly (t : JSStr) (limit : Nat) (h : limit < t.length) :
    elisionMarker (t.length - limit) <:+: truncateWithStrategy t limit false := by
  rw [truncateWithStrategy_headOnly t limit h]
  exact ⟨t.take limit, [], by simp⟩

/-- The marker occurs in every head+tail truncation of over-limit text. -/
theorem marker_in_headTail (t : JSStr) (limit : Nat) (h : limit < t.length) :
    elisionMarker (t.length - forkHeadSize limit - forkTailSize limit)
      <:+: truncateWithStrategy t limit true := by
  rw [truncateWithStrategy_headTail t limit h]
  exact ⟨t.take (forkHeadSize limit), jstr "\n" ++ jsSliceNeg t (forkTailSize limit),
    by simp [List.append_assoc]⟩

/-- Unfolding of list intercalation over a two-element-or-more list. -/
theorem intercalate_cons_cons {α : Type} (sep : List α) (a b : List α) (rest : List (List α)) :
    List.intercalate sep (a :: b :: rest) = a ++ sep ++ List.intercalate sep (b :: rest) := by
  simp [List.intercalate, List.intersperse]

/-- Every member of a list of lists occurs inside its intercalation. -/
theorem infix_intercalate_of_mem {α : Type} (sep : List α) (l : List α) :
    ∀ ls : List (List α), l ∈ ls → l <:+: List.intercalate sep ls := by
  intro ls
  induction ls with
  | nil => intro h; simp at h
  | cons a rest ih =>
    intro h
    cases rest with
    | nil =>
      simp only [List.mem_singleton] at h
      subst h
      simp [List.intercalate, List.intersperse]
    | cons b rest' =>
      rcases List.mem_cons.mp h with h | h
      · subst h
        rw [intercalate_cons_cons]
        exact ((List.prefix_append l sep).isInfix).trans
          ⟨[], List.intercalate sep (b :: rest'), by simp⟩
      · have := ih h
        rw [intercalate_cons_cons]
        refine this.trans ?_
        exact ⟨a ++ sep, [], by simp⟩

/-- Without compaction markers the boundary is the sentinel and nothing is
sliced away. -/
theorem noBoundary_of_no_marker (msgs : List SessionMessage)
    (h : ∀ m ∈ msgs, hasCompactionPart m = false) :
    findCompactionBoundary msgs = -1 ∧ slicedMessages msgs = msgs := by
  have hl := findLatestCompaction_of_none msgs h
  have hb : findCompactionBoundary msgs = -1 := by
    unfold findCompactionBoundary
    rw [hl]
    norm_num
  refine ⟨hb, ?_⟩
  unfold slicedMessages
  rw [hb]
  norm_num

/-- The processed message count is that of the sliced working sequence, and
the tier counters come from the specification fold started at zero. -/
theorem processMessagesForFork_pieces (msgs : List SessionMessage) :
    (processMessagesForFork msgs).1.length = (slicedMessages msgs).length ∧
    (processMessagesForFork msgs).2.tierDistribution
      = tierSpecFold (countToolResults (slicedMessages msgs))
          (countedTexts (slicedMessages msgs)) 0 {} ∧
    (processMessagesForFork msgs).1
      = (processMessagesAux (countToolResults (slicedMessages msgs)) (slicedMessages msgs) 0
          (if findCompactionBoundary msgs ≥ 0 then
            { initialForkStats msgs with
              compactionDetected := true,
              compactionSliceIndex := findCompactionBoundary msgs }
          else initialForkStats msgs)).1 ∧
    (processMessagesForFork msgs).2.compactionSliceIndex
      = (if findCompactionBoundary msgs ≥ 0 then findCompactionBoundary msgs else -1) ∧
    (processMessagesForFork msgs).2.compactionDetected
      = (if findCompactionBoundary msgs ≥ 0 then true else false) := by
  by_cases hb : findCompactionBoundary msgs ≥ 0
  · obtain ⟨e1, _, e3, _, _, _, _, e8, e9⟩ :=
      processMessagesAux_eq (countToolResults (slicedMessages msgs)) (slicedMessages msgs) 0
        { initialForkStats msgs with
          compactionDetected := true,
          compactionSliceIndex := findCompactionBoundary msgs }
    simp only [processMessagesForFork, hb, if_pos]
    exact ⟨e1, e3, trivial, e9, e8⟩
  · obtain ⟨e1, _, e3, _, _, _, _, e8, e9⟩ :=
      processMessagesAux_eq (countToolResults (slicedMessages msgs)) (slicedMessages msgs) 0
        (initialForkStats msgs)
    simp only [processMessagesForFork, hb, if_neg, if_false]
    exact ⟨e1, e3, trivial, e9, e8⟩

/-- Claim C2, counterexample: for a post-slice sequence whose only tool-result
part carries the compaction sentinel, no tier counter is incremented, so the
sum of the three counters differs from the number of tool-result parts. -/
theorem tierSumCex :
    ¬ (sumTierDist (processMessagesForFork msgsC2).2.tierDistribution
        = countToolResults (slicedMessages msgsC2)) := by
  decide

/-- Claim C2 (amended): in `processMessagesForFork` the appropriate counter of
`stats.tierDistribution` is incremented once for every tool-result part of the
post-slice sequence that has truthy text and is not already compacted —
regardless of whether the result needed truncation — so tier1 + tier2 + tier3
equals the number of such parts (empty-text and sentinel-bearing tool results
are excluded). -/
theorem tierSumCounted (msgs : List SessionMessage) :
    sumTierDist (processMessagesForFork msgs).2.tierDistribution
      = (countedTexts (slicedMessages msgs)).countP fun t => !isCompactedResult t := by
  rw [(processMessagesForFork_pieces msgs).2.1, sumTierDist_tierSpecFold]
  simp [sumTierDist]

/-- Claim C3, counterexample: the oldest of exactly 6 tool results is tier 2;
for a 3001-character text the pipeline's truncation (head-only here: no tool
name, no error substring) yields a 3026-character output, which is NOT
strictly shorter than the input. -/
theorem tier2OutputLongerCex :
    getToolResultTier 5 = 2 ∧
    tC3.length = 3001 ∧
    FORK_TIER2_LIMIT < tC3.length ∧
    (stepPart [pC3] 6 0 0 pC3).text
      = some (truncateWithStrategy tC3 FORK_TIER2_LIMIT false) ∧
    (truncateWithStrategy tC3 FORK_TIER2_LIMIT false).length = 3026 ∧
    ¬ ((truncateWithStrategy tC3 FORK_TIER2_LIMIT false).length < tC3.length) := by
  have hlen : tC3.length = 3001 := by
    rw [show tC3 = List.replicate 3001 'a' from rfl, List.length_replicate]
  have hover : FORK_TIER2_LIMIT < tC3.length := by
    rw [hlen]
    decide
  have htext : pC3.text.getD [] = tC3 := rfl
  have hres : resolveToolName [pC3] 0 = none := by decide
  have hc : isCompactedResult (pC3.text.getD []) = false := by
    rw [htext]
    exact isCompactedResult_replicate_a 3001
  have h1 : getToolResultTier (6 - 1 - 0) ≠ 1 := by decide
  have hn : noTruncationTool (resolveToolName [pC3] 0) = false := by
    rw [hres]
    decide
  have hstep := stepPart_truncating [pC3] 6 0 0 pC3 hc h1 hn
  have hht : shouldUseHeadTail (resolveToolName [pC3] 0) (pC3.text.getD []) = false := by
    rw [hres, htext]
    exact shouldUseHeadTail_none_replicate_a 3001
  have hiflimit :
      (if getToolResultTier (6 - 1 - 0) = 2 then FORK_TIER2_LIMIT else FORK_TIER3_LIMIT)
        = FORK_TIER2_LIMIT := by decide
  rw [hiflimit, hht, htext] at hstep
  have hlout : (truncateWithStrategy tC3 FORK_TIER2_LIMIT false).length = 3026 := by
    rw [truncLength_tier2_headOnly tC3 hover, hlen]
    decide
  refine ⟨by decide, hlen, hover, ?_, hlout, ?_⟩
  · rw [hstep]
  · rw [hlout, hlen]
    decide

/-- Claim C3 (amended): for a tool result assigned tier 2 (such as the oldest
of exactly 6) whose raw text exceeds the 3000-character cap, the truncated
output always contains the elision marker; its length is strictly below the
input's whenever the raw length is at least 3029 — for raw lengths between
3001 and 3028 the appended marker can make the output as long as or longer
than the input. -/
theorem tier2TruncationMarkerAndShrink (t : JSStr) (useHT : Bool)
    (h : FORK_TIER2_LIMIT < t.length) :
    getToolResultTier 5 = 2 ∧
    elisionMarker (t.length - FORK_TIER2_LIMIT)
      <:+: truncateWithStrategy t FORK_TIER2_LIMIT useHT ∧
    (3029 ≤ t.length → (truncateWithStrategy t FORK_TIER2_LIMIT useHT).length < t.length) := by
  refine ⟨by decide, ?_, ?_⟩
  · cases useHT with
    | false => exact marker_in_headOnly t FORK_TIER2_LIMIT h
    | true =>
      have hcount : t.length - forkHeadSize FORK_TIER2_LIMIT - forkTailSize FORK_TIER2_LIMIT
          = t.length - FORK_TIER2_LIMIT := by
        have h1 : forkHeadSize FORK_TIER2_LIMIT = 2400 := rfl
        have h2 : forkTailSize FORK_TIER2_LIMIT = 600 := rfl
        have h3 : FORK_TIER2_LIMIT = 3000 := rfl
        rw [h1, h2, h3]
        omega
      have := marker_in_headTail t FORK_TIER2_LIMIT h
      rwa [hcount] at this
  · intro hbig
    have hN : 29 ≤ t.length - 3000 := by
      have : FORK_TIER2_LIMIT = 3000 := rfl
      omega
    cases useHT with
    | false =>
      have hd := digits_lt_self_sub_25 (t.length - 3000) (by omega)
      rw [truncLength_tier2_headOnly t h]
      omega
    | true =>
      have hd := digits_lt_self_sub_26 (t.length - 3000) hN
      rw [truncLength_tier2_headTail t h]
      omega

/-- Witness for the amended claim C3, at a 3029-character text in head-only
mode. -/
theorem tier2TruncationMarkerAndShrinkWitness :
    FORK_TIER2_LIMIT < (List.replicate 3029 'a' : JSStr).length ∧
    elisionMarker ((List.replicate 3029 'a' : JSStr).length - FORK_TIER2_LIMIT)
      <:+: truncateWithStrategy (List.replicate 3029 'a') FORK_TIER2_LIMIT false ∧
    (truncateWithStrategy (List.replicate 3029 'a') FORK_TIER2_LIMIT false).length
      < (List.replicate 3029 'a' : JSStr).length := by
  have hlen : (List.replicate 3029 'a' : JSStr).length = 3029 := List.length_replicate 3029 'a'
  have hover : FORK_TIER2_LIMIT < (List.replicate 3029 'a' : JSStr).length := by
    rw [hlen]
    decide
  obtain ⟨_, hm, hs⟩ := tier2TruncationMarkerAndShrink (List.replicate 3029 'a') false hover
  exact ⟨hover, hm, hs (by rw [hlen])⟩

/-- Claim C6: tier bands (distance below 5 gives tier 1 and the part is
returned unchanged; 5 to 14 gives tier 2 with cap 3000; 15 and above gives
tier 3 with cap 500); sequences of at most 5 tool results pass through
unchanged; for 16 good tool results the tier distribution is
tier1 = 5, tier2 = 10, tier3 = 1. -/
theorem tierAssignmentSpec :
    (∀ d, d < FORK_TIER1_COUNT → getToolResultTier d = 1) ∧
    (∀ d, FORK_TIER1_COUNT ≤ d → d < FORK_TIER1_COUNT + FORK_TIER2_COUNT →
      getToolResultTier d = 2) ∧
    (∀ d, FORK_TIER1_COUNT + FORK_TIER2_COUNT ≤ d → getToolResultTier d = 3) ∧
    (∀ (allParts : List MsgPart) (total partIdx tri : Nat) (p : MsgPart),
      getToolResultTier (total - 1 - tri) = 1 → stepPart allParts total partIdx tri p = p) ∧
    (∀ (allParts : List MsgPart) (total partIdx tri : Nat) (p : MsgPart),
      isCompactedResult (p.text.getD []) = false →
      noTruncationTool (resolveToolName allParts partIdx) = false →
      getToolResultTier (total - 1 - tri) = 2 →
      stepPart allParts total partIdx tri p = { p with text := some (truncateWithStrategy
        (p.text.getD []) FORK_TIER2_LIMIT
        (shouldUseHeadTail (resolveToolName allParts partIdx) (p.text.getD []))) }) ∧
    (∀ (allParts : List MsgPart) (total partIdx tri : Nat) (p : MsgPart),
      isCompactedResult (p.text.getD []) = false →
      noTruncationTool (resolveToolName allParts partIdx) = false →
      getToolResultTier (total - 1 - tri) = 3 →
      stepPart allParts total partIdx tri p = { p with text := some (truncateWithStrategy
        (p.text.getD []) FORK_TIER3_LIMIT
        (shouldUseHeadTail (resolveToolName allParts partIdx) (p.text.getD []))) }) ∧
    (∀ msgs : List SessionMessage, countToolResults (slicedMessages msgs) ≤ FORK_TIER1_COUNT →
      (processMessagesForFork msgs).1 = slicedMessages msgs) ∧
    (∀ msgs : List SessionMessage, (∀ m ∈ msgs, hasCompactionPart m = false) →
      goodResults msgs → countToolResults msgs = 16 →
      (processMessagesForFork msgs).2.tierDistribution
        = { tier1 := 5, tier2 := 10, tier3 := 1 }) := by
  refine ⟨getToolResultTier_eq_one, getToolResultTier_eq_two, getToolResultTier_eq_three,
    ?_, ?_, ?_, ?_, ?_⟩
  · intro allParts total partIdx tri p h
    exact stepPart_tier1 allParts total partIdx tri p h
  · intro allParts total partIdx tri p hc hn h2
    have := stepPart_truncating allParts total partIdx tri p hc (by rw [h2]; decide) hn
    rwa [h2, if_pos rfl] at this
  · intro allParts total partIdx tri p hc hn h3
    have := stepPart_truncating allParts total partIdx tri p hc (by rw [h3]; decide) hn
    rwa [h3, if_neg (by decide)] at this
  · intro msgs hsmall
    have hpiece := (processMessagesForFork_pieces msgs).2.2.1
    rw [hpiece]
    exact processMessagesAux_id_of_small _ hsmall _ 0 _
  · intro msgs hm hgood hc
    obtain ⟨hb, hs⟩ := noBoundary_of_no_marker msgs hm
    have hpiece := (processMessagesForFork_pieces msgs).2.1
    rw [hs] at hpiece
    rw [hpiece, hc]
    have hlen : (countedTexts msgs).length = 16 := by
      rw [countedTexts_length_of_good msgs hgood, hc]
    have hclean := countedTexts_clean_of_good msgs hgood
    obtain ⟨e1, e2, e3⟩ := tierSpecFold_clean 16 (countedTexts msgs) hclean 0 {}
    rw [hlen] at e1 e2 e3
    have heta : tierSpecFold 16 (countedTexts msgs) 0 {}
        = ⟨(tierSpecFold 16 (countedTexts msgs) 0 {}).tier1,
           (tierSpecFold 16 (countedTexts msgs) 0 {}).tier2,
           (tierSpecFold 16 (countedTexts msgs) 0 {}).tier3⟩ := rfl
    rw [heta, e1, e2, e3]
    decide

/-- Witness for claim C6: band values at distances 4, 5, 15; a one-result
sequence passes through; sixteen good results distribute as 5, 10, 1. -/
theorem tierAssignmentSpecWitness :
    getToolResultTier 4 = 1 ∧ getToolResultTier 5 = 2 ∧ getToolResultTier 15 = 3 ∧
    (processMessagesForFork [mResSmall]).1 = slicedMessages [mResSmall] ∧
    (processMessagesForFork msgs16).2.tierDistribution
      = { tier1 := 5, tier2 := 10, tier3 := 1 } := by
  refine ⟨tierAssignmentSpec.1 4 (by decide),
    tierAssignmentSpec.2.1 5 (by decide) (by decide),
    tierAssignmentSpec.2.2.1 15 (by decide), ?_, ?_⟩
  · exact tierAssignmentSpec.2.2.2.2.2.2.1 [mResSmall] (by decide)
  · exact tierAssignmentSpec.2.2.2.2.2.2.2 msgs16 (by decide) (by decide) (by decide)

/-- The head+tail selector unfolded into the spec's wording: a keyword inside
the truthy tool name, or an error pattern inside the result text. -/
theorem shouldUseHeadTail_iff (toolName : Option JSStr) (t : JSStr) :
    shouldUseHeadTail toolName t = true ↔
      ((jsTruthy toolName = true ∧ ∃ kw ∈ FORK_HEAD_TAIL_KEYWORDS, kw <:+: toolName.getD [])
        ∨ ∃ pat ∈ FORK_ERROR_PATTERNS, pat <:+: t) := by
  unfold shouldUseHeadTail
  simp [List.any_eq_true, jsIncludes_iff]

/-- Actual truncation implies the text was over the limit. -/
theorem truncate_ne_imp_over (t : JSStr) (limit : Nat) (u : Bool)
    (h : truncateWithStrategy t limit u ≠ t) : limit < t.length := by
  by_contra hle
  push_neg at hle
  apply h
  unfold truncateWithStrategy
  rw [if_pos hle]

/-- Stats update in the tier-1 branch: only the tier counter is bumped. -/
theorem stepStats_tier1 (allParts : List MsgPart) (total partIdx tri : Nat) (p : MsgPart)
    (stats : ProcessingStats) (hc : isCompactedResult (p.text.getD []) = false)
    (h1 : getToolResultTier (total - 1 - tri) = 1) :
    stepStats allParts total partIdx tri p stats =
      { stats with
        tierDistribution := bumpTier (getToolResultTier (total - 1 - tri)) stats.tierDistribution
      } := by
  simp only [stepStats]
  split_ifs <;> simp_all

/-- Claim C7: for a counted tool result that tier-2/3 processing actually
truncates, head+tail mode is selected exactly when the resolved tool name
contains a configured keyword or the text contains a configured error
substring; in head+tail mode the output keeps both the first
`floor(0.8 * cap)` characters and the last `floor(0.2 * cap)` characters of
the original and `headTailApplied` increments; otherwise the output is
exactly the first `cap` characters followed by the elision marker and
`headTailApplied` is unchanged. `truncatedResults` increments either way. -/
theorem truncationStrategySpec (allParts : List MsgPart) (total partIdx tri : Nat)
    (p : MsgPart) (stats : ProcessingStats) (t : JSStr) (toolName : Option JSStr) (limit : Nat)
    (ht : p.text = some t)
    (hres : resolveToolName allParts partIdx = toolName)
    (hlimit : limit = if getToolResultTier (total - 1 - tri) = 2
      then FORK_TIER2_LIMIT else FORK_TIER3_LIMIT)
    (hc : isCompactedResult t = false)
    (h1 : getToolResultTier (total - 1 - tri) ≠ 1)
    (hn : noTruncationTool toolName = false)
    (hne : truncateWithStrategy t limit (shouldUseHeadTail toolName t) ≠ t) :
    (shouldUseHeadTail toolName t = true ↔
      ((jsTruthy toolName = true ∧ ∃ kw ∈ FORK_HEAD_TAIL_KEYWORDS, kw <:+: toolName.getD [])
        ∨ ∃ pat ∈ FORK_ERROR_PATTERNS, pat <:+: t)) ∧
    (stepPart allParts total partIdx tri p).text
      = some (truncateWithStrategy t limit (shouldUseHeadTail toolName t)) ∧
    (stepStats allParts total partIdx tri p stats).truncatedResults
      = stats.truncatedResults + 1 ∧
    (shouldUseHeadTail toolName t = true →
      t.take (forkHeadSize limit) <+: truncateWithStrategy t limit true ∧
      jsSliceNeg t (forkTailSize limit) <:+ truncateWithStrategy t limit true ∧
      (stepStats allParts total partIdx tri p stats).headTailApplied
        = stats.headTailApplied + 1) ∧
    (shouldUseHeadTail toolName t = false →
      truncateWithStrategy t limit false
        = t.take limit ++ elisionMarker (t.length - limit) ∧
      (stepStats allParts total partIdx tri p stats).headTailApplied
        = stats.headTailApplied) := by
  have htg : p.text.getD [] = t := by rw [ht]; rfl
  have hover : limit < t.length := truncate_ne_imp_over t limit _ hne
  have hc' : isCompactedResult (p.text.getD []) = false := by rwa [htg]
  have hn' : noTruncationTool (resolveToolName allParts partIdx) = false := by rwa [hres]
  have hstepP := stepPart_truncating allParts total partIdx tri p hc' h1 hn'
  rw [htg, hres, ← hlimit] at hstepP
  have hstepS := stepStats_truncating allParts total partIdx tri p stats hc' h1 hn'
  rw [htg, hres, ← hlimit] at hstepS
  have hstepS' := hstepS hne
  refine ⟨shouldUseHeadTail_iff toolName t, ?_, hstepS'.1, ?_, ?_⟩
  · rw [hstepP]
  · intro hu
    rw [hu] at hstepS'
    refine ⟨?_, ?_, by simpa using hstepS'.2⟩
    · rw [truncateWithStrategy_headTail t limit hover]
      have hassoc : t.take (forkHeadSize limit)
            ++ elisionMarker (t.length - forkHeadSize limit - forkTailSize limit)
            ++ jstr "\n" ++ jsSliceNeg t (forkTailSize limit)
          = t.take (forkHeadSize limit)
            ++ (elisionMarker (t.length - forkHeadSize limit - forkTailSize limit)
              ++ jstr "\n" ++ jsSliceNeg t (forkTailSize limit)) := by
        simp [List.append_assoc]
      rw [hassoc]
      exact List.prefix_append _ _
    · rw [truncateWithStrategy_headTail t limit hover]
      have hassoc : t.take (forkHeadSize limit)
            ++ elisionMarker (t.length - forkHeadSize limit - forkTailSize limit)
            ++ jstr "\n" ++ jsSliceNeg t (forkTailSize limit)
          = (t.take (forkHeadSize limit)
            ++ elisionMarker (t.length - forkHeadSize limit - forkTailSize limit)
              ++ jstr "\n") ++ jsSliceNeg t (forkTailSize limit) := by
        simp [List.append_assoc]
      rw [hassoc]
      exact List.suffix_append _ _
  · intro hu
    rw [hu] at hstepS'
    exact ⟨truncateWithStrategy_headOnly t limit hover, by simpa using hstepS'.2⟩

/-- Witness for claim C7: a 3001-character `bash` result at tier 2 keeps its
2400-character head and 600-character tail, and both counters advance. -/
theorem truncationStrategySpecWitness :
    (stepStats [pC7] 6 0 0 pC7 {}).truncatedResults = 1 ∧
    (stepStats [pC7] 6 0 0 pC7 {}).headTailApplied = 1 ∧
    (List.replicate 3001 'a' : JSStr).take (forkHeadSize FORK_TIER2_LIMIT)
      <+: truncateWithStrategy (List.replicate 3001 'a') FORK_TIER2_LIMIT true ∧
    jsSliceNeg (List.replicate 3001 'a') (forkTailSize FORK_TIER2_LIMIT)
      <:+ truncateWithStrategy (List.replicate 3001 'a') FORK_TIER2_LIMIT true := by
  have hlen : (List.replicate 3001 'a' : JSStr).length = 3001 := List.length_replicate _ _
  have hu : shouldUseHeadTail (some (jstr "bash")) (List.replicate 3001 'a') = true := by
    decide
  have hover : FORK_TIER2_LIMIT < (List.replicate 3001 'a' : JSStr).length := by
    rw [hlen]
    decide
  have hout : (truncateWithStrategy (List.replicate 3001 'a') FORK_TIER2_LIMIT true).length
      = 3027 := by
    rw [truncLength_tier2_headTail _ hover, hlen]
    decide
  have hne : truncateWithStrategy (List.replicate 3001 'a') FORK_TIER2_LIMIT
      (shouldUseHeadTail (some (jstr "bash")) (List.replicate 3001 'a'))
        ≠ List.replicate 3001 'a' := by
    rw [hu]
    intro heq
    have hle := congrArg List.length heq
    rw [hout, hlen] at hle
    exact absurd hle (by decide)
  obtain ⟨hiff, htext, htrunc, hht, hho⟩ :=
    truncationStrategySpec [pC7] 6 0 0 pC7 {} (List.replicate 3001 'a')
      (some (jstr "bash")) FORK_TIER2_LIMIT rfl (by decide) (by decide)
      (isCompactedResult_replicate_a 3001) (by decide) (by decide) hne
  obtain ⟨hpre, hsuf, happ⟩ := hht hu
  exact ⟨by simpa using htrunc, by simpa using happ, hpre, hsuf⟩

/-- Claim C8: pass-through exceptions for every tier — a sentinel-bearing
result is returned exactly as is with the whole stats untouched, and a
result of a never-truncate tool is returned exactly as is with
`truncatedResults` untouched. -/
theorem passThroughSpec (allParts : List MsgPart) (total partIdx tri : Nat) (p : MsgPart)
    (stats : ProcessingStats) (t : JSStr) (ht : p.text = some t) :
    (isCompactedResult t = true →
      stepPart allParts total partIdx tri p = p ∧
      stepStats allParts total partIdx tri p stats = stats) ∧
    (noTruncationTool (resolveToolName allParts partIdx) = true →
      stepPart allParts total partIdx tri p = p ∧
      (stepStats allParts total partIdx tri p stats).truncatedResults
        = stats.truncatedResults) := by
  have htg : p.text.getD [] = t := by rw [ht]; rfl
  constructor
  · intro hcomp
    have hc' : isCompactedResult (p.text.getD []) = true := by rwa [htg]
    exact ⟨stepPart_compacted _ _ _ _ p hc', stepStats_compacted _ _ _ _ p stats hc'⟩
  · intro hn
    refine ⟨stepPart_noTrunc _ _ _ _ p hn, ?_⟩
    by_cases hcomp : isCompactedResult (p.text.getD []) = true
    · rw [stepStats_compacted _ _ _ _ p stats hcomp]
    · have hc' : isCompactedResult (p.text.getD []) = false := by simpa using hcomp
      by_cases h1 : getToolResultTier (total - 1 - tri) = 1
      · rw [stepStats_tier1 _ _ _ _ p stats hc' h1]
      · rw [stepStats_noTrunc _ _ _ _ p stats hc' hn]

/-- Witness for claim C8: a sentinel-bearing result and an
`ask_user_questions` result, both at tier 3, pass through untouched. -/
theorem passThroughSpecWitness :
    (stepPart [pCompC2] 20 0 0 pCompC2 = pCompC2 ∧
      stepStats [pCompC2] 20 0 0 pCompC2 {} = ({} : ProcessingStats)) ∧
    (stepPart [pC8] 20 0 0 pC8 = pC8 ∧
      (stepStats [pC8] 20 0 0 pC8 {}).truncatedResults
        = ({} : ProcessingStats).truncatedResults) := by
  refine ⟨(passThroughSpec [pCompC2] 20 0 0 pCompC2 {}
      (jstr "[Old tool result content cleared]") rfl).1 (by decide),
    (passThroughSpec [pC8] 20 0 0 pC8 {} (List.replicate 600 'a') rfl).2 (by decide)⟩

/-- Claim C10: a tool-result part with absent or empty text passes through
with part, stats and tool-result index all unchanged; it still counts into
`countToolResults` while leaving the counted texts unchanged, so inserting
one such part raises the distance-from-end of every text-bearing result by
exactly one, which can demote a result to a stricter tier (distance 4 is
tier 1 but 5 is tier 2; 14 is tier 2 but 15 is tier 3). -/
theorem emptyResultDistanceShift :
    (∀ (allParts : List MsgPart) (total : Nat) (rest : List MsgPart) (partIdx tri : Nat)
      (stats : ProcessingStats) (p : MsgPart),
      p.type = some (jstr "tool_result") → jsTruthy p.text = false →
      processParts allParts total (p :: rest) partIdx tri stats
        = (p :: (processParts allParts total rest (partIdx + 1) tri stats).1,
           (processParts allParts total rest (partIdx + 1) tri stats).2.1,
           (processParts allParts total rest (partIdx + 1) tri stats).2.2)) ∧
    (∀ (pre post : List SessionMessage) (info : Option MsgInfo) (ps1 ps2 : List MsgPart)
      (p0 : MsgPart), p0.type = some (jstr "tool_result") → jsTruthy p0.text = false →
      countToolResults
          (pre ++ ({ info := info, parts := some (ps1 ++ p0 :: ps2) } : SessionMessage) :: post)
        = countToolResults
          (pre ++ ({ info := info, parts := some (ps1 ++ ps2) } : SessionMessage) :: post) + 1 ∧
      countedTexts
          (pre ++ ({ info := info, parts := some (ps1 ++ p0 :: ps2) } : SessionMessage) :: post)
        = countedTexts
          (pre ++ ({ info := info, parts := some (ps1 ++ ps2) } : SessionMessage) :: post)) ∧
    (∀ total j : Nat, j < total →
      getToolResultTier (total + 1 - 1 - j) = getToolResultTier ((total - 1 - j) + 1)) ∧
    (getToolResultTier 4 = 1 ∧ getToolResultTier 5 = 2 ∧
      getToolResultTier 14 = 2 ∧ getToolResultTier 15 = 3) := by
  refine ⟨?_, ?_, ?_, by decide, by decide, by decide, by decide⟩
  · intro allParts total rest partIdx tri stats p hty htx
    have hcp : countedPart p = false := by
      unfold countedPart
      rw [htx]
      simp
    simp [processParts, hcp]
  · intro pre post info ps1 ps2 p0 hty htx
    have hcp : countedPart p0 = false := by
      unfold countedPart
      rw [htx]
      simp
    constructor
    · simp only [countToolResults, List.flatMap_append, List.flatMap_cons, Option.getD_some,
        List.countP_append, List.countP_cons, hty]
      simp
      omega
    · simp only [countedTexts, List.flatMap_append, List.flatMap_cons, Option.getD_some,
        countedTextsOfParts, List.filterMap_append, List.filterMap_cons, hcp]
      simp
  · intro total j hj
    congr 1
    omega

/-- Witness for claim C10: one empty-text result inserted before a small
sequence leaves the counted texts unchanged while raising the total. -/
theorem emptyResultDistanceShiftWitness :
    processParts [] 1 [pEmptyC10] 0 0 {}
      = (pEmptyC10 :: (processParts [] 1 [] 1 0 {}).1,
         (processParts [] 1 [] 1 0 {}).2.1, (processParts [] 1 [] 1 0 {}).2.2) ∧
    countToolResults [{ info := none, parts := some ([] ++ pEmptyC10 :: [pResSmall]) }]
      = countToolResults [{ info := none, parts := some ([] ++ [pResSmall]) }] + 1 ∧
    countedTexts [{ info := none, parts := some ([] ++ pEmptyC10 :: [pResSmall]) }]
      = countedTexts [{ info := none, parts := some ([] ++ [pResSmall]) }] ∧
    getToolResultTier (1 + 1 - 1 - 0) = getToolResultTier ((1 - 1 - 0) + 1) := by
  refine ⟨emptyResultDistanceShift.1 [] 1 [] 0 0 {} pEmptyC10 rfl (by decide), ?_, ?_,
    emptyResultDistanceShift.2.2.1 1 0 (by decide)⟩
  · exact (emptyResultDistanceShift.2.1 [] [] none [] [pResSmall] pEmptyC10 rfl (by decide)).1
  · exact (emptyResultDistanceShift.2.1 [] [] none [] [pResSmall] pEmptyC10 rfl (by decide)).2

/-- Claim C5: boundary detection and slicing. Without any compaction-marker
part the sentinel `-1` is returned and everything is retained; given the
latest marker at index `i`, if no later message is a summary assistant
message the result is again no boundary and full retention; if summaries
follow, the nearest one's index `j` is returned and the pipeline processes
exactly the messages from `j` onward. -/
theorem compactionBoundarySpec (msgs : List SessionMessage) :
    ((∀ m ∈ msgs, hasCompactionPart m = false) →
      findCompactionBoundary msgs = -1 ∧ slicedMessages msgs = msgs ∧
      (processMessagesForFork msgs).2.compactionSliceIndex = -1 ∧
      (processMessagesForFork msgs).2.compactionDetected = false ∧
      (processMessagesForFork msgs).1.length = msgs.length) ∧
    (∀ (i : Nat) (mi : SessionMessage), msgs[i]? = some mi → hasCompactionPart mi = true →
      (∀ (k : Nat) (mk' : SessionMessage), i < k → msgs[k]? = some mk' →
        hasCompactionPart mk' = false) →
      ((∀ (k : Nat) (mk' : SessionMessage), i < k → msgs[k]? = some mk' →
          isSummaryMessage mk' = false) →
        findCompactionBoundary msgs = -1 ∧ slicedMessages msgs = msgs ∧
        (processMessagesForFork msgs).1.length = msgs.length) ∧
      (∀ (j : Nat) (mj : SessionMessage), i < j → msgs[j]? = some mj →
        isSummaryMessage mj = true →
        (∀ (k : Nat) (mk' : SessionMessage), i < k → k < j → msgs[k]? = some mk' →
          isSummaryMessage mk' = false) →
        findCompactionBoundary msgs = (j : Int) ∧
        slicedMessages msgs = msgs.drop j ∧
        (processMessagesForFork msgs).2.compactionSliceIndex = (j : Int) ∧
        (processMessagesForFork msgs).2.compactionDetected = true ∧
        (processMessagesForFork msgs).1.length = msgs.length - j ∧
        (processMessagesForFork msgs).1
          = (processMessagesAux (countToolResults (msgs.drop j)) (msgs.drop j) 0
              { initialForkStats msgs with
                compactionDetected := true,
                compactionSliceIndex := (j : Int) }).1)) := by
  obtain ⟨plen, ptd, pmsg, pslice, pdet⟩ := processMessagesForFork_pieces msgs
  constructor
  · intro hnone
    obtain ⟨hb, hs⟩ := noBoundary_of_no_marker msgs hnone
    have hneg : ¬ (findCompactionBoundary msgs ≥ 0) := by
      rw [hb]
      decide
    refine ⟨hb, hs, ?_, ?_, ?_⟩
    · rw [pslice, if_neg hneg]
    · rw [pdet, if_neg hneg]
    · rw [plen, hs]
  · intro i mi hmi hci hlatest
    have hlat : findLatestCompaction msgs = (i : Int) :=
      findLatestCompaction_of_latest msgs i mi hmi hci hlatest
    have hitonat : (findLatestCompaction msgs).toNat = i := by
      rw [hlat]
      exact Int.toNat_natCast i
    constructor
    · intro hnosum
      have hnone : ∀ x ∈ msgs.drop (i + 1), isSummaryMessage x = false := by
        intro x hx
        obtain ⟨k', hk'⟩ := List.getElem?_of_mem hx
        rw [List.getElem?_drop] at hk'
        exact hnosum (i + 1 + k') x (by omega) hk'
      have hfind : (msgs.drop (i + 1)).findIdx? isSummaryMessage = none :=
        findIdxQ_of_none isSummaryMessage (msgs.drop (i + 1)) hnone 0
      have hb : findCompactionBoundary msgs = -1 := by
        unfold findCompactionBoundary
        rw [hlat, if_neg (by omega), Int.toNat_natCast]
        unfold findSummaryFrom
        rw [hfind]
      have hs : slicedMessages msgs = msgs := by
        unfold slicedMessages
        rw [hb]
        norm_num
      refine ⟨hb, hs, ?_⟩
      rw [plen, hs]
    · intro j mj hij hmj hsj hbefore
      have hdropj : (msgs.drop (i + 1))[j - (i + 1)]? = some mj := by
        rw [List.getElem?_drop]
        have : i + 1 + (j - (i + 1)) = j := by omega
        rw [this]
        exact hmj
      have hbefore' : ∀ (k : Nat) (y : SessionMessage), k < j - (i + 1) →
          (msgs.drop (i + 1))[k]? = some y → isSummaryMessage y = false := by
        intro k y hk hky
        rw [List.getElem?_drop] at hky
        exact hbefore (i + 1 + k) y (by omega) (by omega) hky
      have hfind : (msgs.drop (i + 1)).findIdx? isSummaryMessage = some (0 + (j - (i + 1))) :=
        findIdxQ_of_first isSummaryMessage (msgs.drop (i + 1)) (j - (i + 1)) mj
          hdropj hsj hbefore' 0
      have hb : findCompactionBoundary msgs = (j : Int) := by
        unfold findCompactionBoundary
        rw [hlat, if_neg (by omega), Int.toNat_natCast]
        unfold findSummaryFrom
        rw [hfind]
        show ((i + 1 + (0 + (j - (i + 1))) : Nat) : Int) = (j : Int)
        congr 1
        omega
      have hpos : findCompactionBoundary msgs ≥ 0 := by
        rw [hb]
        omega
      have hs : slicedMessages msgs = msgs.drop j := by
        unfold slicedMessages
        rw [hb, if_pos (by omega), Int.toNat_natCast]
      refine ⟨hb, hs, ?_, ?_, ?_, ?_⟩
      · rw [pslice, if_pos hpos, hb]
      · rw [pdet, if_pos hpos]
      · rw [plen, hs, List.length_drop]
      · rw [pmsg, if_pos hpos, hb, hs]

/-- Witness for claim C5: marker at index 1 followed by a summary at index 2
slices the four-message history down to its last two messages. -/
theorem compactionBoundarySpecWitness :
    findCompactionBoundary msgsC5 = (2 : Int) ∧
    slicedMessages msgsC5 = msgsC5.drop 2 ∧
    (processMessagesForFork msgsC5).2.compactionSliceIndex = (2 : Int) ∧
    (processMessagesForFork msgsC5).2.compactionDetected = true ∧
    (processMessagesForFork msgsC5).1.length = msgsC5.length - 2 := by
  have hlatest : ∀ (k : Nat) (mk' : SessionMessage), 1 < k → msgsC5[k]? = some mk' →
      hasCompactionPart mk' = false := by
    intro k mk' hk hmk
    rcases k with _ | _ | _ | _ | k
    · omega
    · omega
    · have h2 : msgsC5[2]? = some mSumC5 := rfl
      rw [h2] at hmk
      rw [← Option.some_inj.mp hmk]
      decide
    · have h3 : msgsC5[3]? = some mPlainC5 := rfl
      rw [h3] at hmk
      rw [← Option.some_inj.mp hmk]
      decide
    · have hnone : msgsC5[k + 4]? = none := rfl
      rw [hnone] at hmk
      cases hmk
  have hbetween : ∀ (k : Nat) (mk' : SessionMessage), 1 < k → k < 2 → msgsC5[k]? = some mk' →
      isSummaryMessage mk' = false := by
    intro k mk' hk1 hk2
    omega
  obtain ⟨hb, hs, hsl, hdet, hlen, _⟩ :=
    ((compactionBoundarySpec msgsC5).2 1 mCompC5 rfl (by decide) hlatest).2
      2 mSumC5 (by omega) rfl (by decide) hbetween
  exact ⟨hb, hs, hsl, hdet, hlen⟩

/-- Claim C4: for a non-empty sequence the formatted context is wrapped in
the delimiter pair, `totalChars` records its exact length, the length never
exceeds the hard budget unless eviction stopped at a single message, and a
first formatting within the no-removal threshold removes nothing. -/
theorem formatBudgetInvariant (msgs : List SessionMessage) (stats : ProcessingStats)
    (hne : msgs ≠ []) (hrm : stats.removedMessages = 0) :
    jstr "<inherited_context>" <+: (formatMessagesAsContext msgs stats).1 ∧
    jstr "</inherited_context>" <:+ (formatMessagesAsContext msgs stats).1 ∧
    (formatMessagesAsContext msgs stats).2.totalChars
      = (formatMessagesAsContext msgs stats).1.length ∧
    ((formatMessagesAsContext msgs stats).2.totalChars ≤ FORK_CHAR_BUDGET ∨
      (formatMessagesAsContext msgs stats).2.finalCount = 1) ∧
    ((formatWithBudget msgs).2 ≤ FORK_CHAR_NO_REMOVAL →
      (formatMessagesAsContext msgs stats).2.removedMessages = 0 ∧
      (formatMessagesAsContext msgs stats).2.finalCount = msgs.length) := by
  rcases msgs with _ | ⟨m, rest⟩
  · exact absurd rfl hne
  · by_cases hno : (formatWithBudget (m :: rest)).2 ≤ FORK_CHAR_NO_REMOVAL
    · simp only [formatMessagesAsContext, hno, if_pos]
      refine ⟨(formatWithBudget_delimited (m :: rest)).1,
        (formatWithBudget_delimited (m :: rest)).2, rfl, ?_, fun _ => ⟨hrm, trivial⟩⟩
      left
      have : FORK_CHAR_NO_REMOVAL ≤ FORK_CHAR_BUDGET := by decide
      omega
    · obtain ⟨e1, e2, e3, e4⟩ := evictLoop_invariant (m :: rest) 0 (by simp)
      simp only [formatMessagesAsContext, hno, if_neg, if_false]
      refine ⟨e3, e4, ?_, ?_, fun h => h.elim⟩
      · simpa using e1
      · simpa [hrm] using e2

/-- Witness for claim C4, at a one-message history that stays far below the
no-removal threshold. -/
theorem formatBudgetInvariantWitness :
    jstr "<inherited_context>" <+: (formatMessagesAsContext [mC4] {}).1 ∧
    jstr "</inherited_context>" <:+ (formatMessagesAsContext [mC4] {}).1 ∧
    (formatMessagesAsContext [mC4] {}).2.totalChars
      = (formatMessagesAsContext [mC4] {}).1.length ∧
    (formatMessagesAsContext [mC4] {}).2.removedMessages = 0 ∧
    (formatMessagesAsContext [mC4] {}).2.finalCount = 1 := by
  obtain ⟨h1, h2, h3, _, h5⟩ := formatBudgetInvariant [mC4] {} (by simp) rfl
  obtain ⟨h5a, h5b⟩ := h5 (by decide)
  exact ⟨h1, h2, h3, h5a, h5b⟩

set_option maxRecDepth 40000 in
/-- Claim C1, counterexample: the only tool result is at distance 0, hence
tier 1 with a claimed 500-character preview budget; its serialized parameters
are 112 characters, within that budget, yet the formatted context does not
contain them in full — the source always truncates previews at the tier-3
budget of 100 characters. -/
theorem paramsPreviewTierCex :
    countToolResults [msgC1] = 1 ∧
    getToolResultTier 0 = 1 ∧
    FORK_PARAMS_TIER3 < (Json.stringify (Json.obj paramsC1)).length ∧
    (Json.stringify (Json.obj paramsC1)).length ≤ FORK_PARAMS_TIER1 ∧
    jsIncludes (formatMessagesAsContext [msgC1] {}).1 (Json.stringify (Json.obj paramsC1))
      = false := by
  exact ⟨by decide, by decide, by decide, by decide, by decide⟩

/-- Claim C1 (amended): the parameter preview of every tool-invocation part
uses the fixed tier-3 budget `FORK_PARAMS_TIER3 = 100` regardless of the
corresponding tool result's tier: serialized parameters longer than 100
characters are truncated to 100 with an ellipsis appended, and previews
within 100 characters are rendered in full; the rendered line occurs inside
the formatted message. -/
theorem paramsPreviewFixedBudget (p : MsgPart) (input : List (String × Json))
    (hty : p.type = some (jstr "tool")) (htool : jsTruthy p.tool = true)
    (hin : p.stateInput = some input) :
    renderPart p = some (jstr "[Tool: " ++ p.tool.getD [] ++ jstr "]" ++
      (if (Json.stringify (Json.obj input)).length > FORK_PARAMS_TIER3 then
        jstr " " ++ (Json.stringify (Json.obj input)).take FORK_PARAMS_TIER3 ++ jstr "..."
      else jstr " " ++ Json.stringify (Json.obj input))) ∧
    FORK_PARAMS_TIER3 = 100 ∧
    (∀ (msg : SessionMessage) (l : JSStr), p ∈ msg.parts.getD [] → renderPart p = some l →
      l <:+: formatMessage msg) := by
  refine ⟨?_, rfl, ?_⟩
  · have hne : (some (jstr "tool") == some (jstr "text")) = false := by decide
    simp only [renderPart, hty, hne, Bool.false_and, Bool.false_eq_true, if_false, htool,
      Bool.and_true, hin]
    simp
  · intro msg l hp hr
    have hmem : l ∈ (msg.parts.getD []).filterMap renderPart :=
      List.mem_filterMap.mpr ⟨p, hp, hr⟩
    have hl : l ∈ (jstr "\n"
        ++ roleLabelOf (match msg.info with
          | some i => i.role.getD (jstr "unknown")
          | none => jstr "unknown") ++ jstr ":") :: (msg.parts.getD []).filterMap renderPart :=
      List.mem_cons_of_mem _ hmem
    exact infix_intercalate_of_mem (jstr "\n") l _ hl

set_option maxRecDepth 40000 in
/-- Witness for the amended claim C1: the 112-character parameters of the
concrete `read` invocation are cut at 100 characters with an ellipsis, and
the truncated line occurs in the formatted message. -/
theorem paramsPreviewFixedBudgetWitness :
    renderPart pToolC1 = some (jstr "[Tool: " ++ pToolC1.tool.getD [] ++ jstr "]" ++
      (jstr " " ++ (Json.stringify (Json.obj paramsC1)).take FORK_PARAMS_TIER3
        ++ jstr "...")) ∧
    (renderPart pToolC1).getD [] <:+: formatMessage msgC1 := by
  obtain ⟨hrp, _, hmem⟩ := paramsPreviewFixedBudget pToolC1 paramsC1 rfl (by decide) rfl
  have hgt : (Json.stringify (Json.obj paramsC1)).length > FORK_PARAMS_TIER3 := by decide
  rw [if_pos hgt] at hrp
  have hpmem : pToolC1 ∈ msgC1.parts.getD [] := by
    rw [show msgC1.parts.getD [] = [pToolC1, pResC1] from rfl]
    exact List.mem_cons_self _ _
  have hinf := hmem msgC1 _ hpmem hrp
  refine ⟨hrp, ?_⟩
  rw [hrp]
  simpa using hinf
